import Mathlib

/-!
Verification of the recurrence and reminder subsystem of the todo backend.

The definitions below are shallow embeddings of
`backend/app/services/recurrence_service.py` and
`backend/app/services/reminder_service.py`, together with the data model in
`backend/app/models/{recurrence,reminder,task}.py`.

Modelling conventions:
* Python `datetime` values are embedded as `TodoRec.DateTime`
  (proleptic Gregorian year/month/day plus a time-of-day component);
  `datetime + timedelta(days=n)` is `addDays` (repeated calendar-correct
  day stepping), and `datetime` comparison is the lexicographic order on
  (year, month, day, time-of-day), exactly as in CPython.
* The reminder service performs no calendar arithmetic: it only subtracts a
  minute offset from a timestamp and compares timestamps, so on that side
  instants are embedded as integers (minutes on a global timeline).
* Database rows are lists of records; `session.execute(select(...))`
  followed by `scalar_one_or_none()` is embedded by filtering the list and
  applying `scalarOneOrNone`, which errors (as SQLAlchemy raises
  `MultipleResultsFound`) when more than one row matches.
* UUIDs are embedded as `Nat`; freshly generated UUIDs become explicit
  parameters of the operations that create rows.
-/

namespace TodoRec

/-- A Python `datetime`: proleptic Gregorian date plus time of day.
`tod` is the time-of-day component (hour/minute/second/µs), encoded as a
single number smaller than one day. -/
structure DateTime where
  year : Nat
  month : Nat
  day : Nat
  tod : Nat
deriving DecidableEq, Repr

/-- `calendar.isleap`. -/
def isleap (y : Nat) : Bool :=
  (y % 4 = 0 && y % 100 ≠ 0) || y % 400 = 0

/-- `calendar.monthrange(y, m)[1]`: number of days of month `m` in year `y`. -/
def daysInMonth (y m : Nat) : Nat :=
  if m = 2 then (if isleap y then 29 else 28)
  else if m = 4 ∨ m = 6 ∨ m = 9 ∨ m = 11 then 30
  else 31

/-- The well-formedness invariant every Python `datetime` satisfies by
construction (the `datetime` constructor validates its arguments). -/
def DateTime.Valid (dt : DateTime) : Prop :=
  1 ≤ dt.year ∧ 1 ≤ dt.month ∧ dt.month ≤ 12 ∧
    1 ≤ dt.day ∧ dt.day ≤ daysInMonth dt.year dt.month ∧ dt.tod < 86400

instance (dt : DateTime) : Decidable dt.Valid := by
  unfold DateTime.Valid; infer_instance

/-- Advance a date by one calendar day. -/
def succDay (dt : DateTime) : DateTime :=
  if dt.day < daysInMonth dt.year dt.month then { dt with day := dt.day + 1 }
  else if dt.month < 12 then { dt with month := dt.month + 1, day := 1 }
  else { dt with year := dt.year + 1, month := 1, day := 1 }

/-- `datetime + timedelta(days=n)` for `n ≥ 0`: `n`-fold calendar day step. -/
def addDays (dt : DateTime) : Nat → DateTime
  | 0 => dt
  | n + 1 => succDay (addDays dt n)

/-- CPython `datetime` comparison `a <= b`: lexicographic on
(year, month, day, time-of-day). -/
def dtLe (a b : DateTime) : Prop :=
  a.year < b.year ∨ (a.year = b.year ∧
    (a.month < b.month ∨ (a.month = b.month ∧
      (a.day < b.day ∨ (a.day = b.day ∧ a.tod ≤ b.tod)))))

/-- CPython `datetime` comparison `a < b`. -/
def dtLt (a b : DateTime) : Prop :=
  a.year < b.year ∨ (a.year = b.year ∧
    (a.month < b.month ∨ (a.month = b.month ∧
      (a.day < b.day ∨ (a.day = b.day ∧ a.tod < b.tod)))))

instance (a b : DateTime) : Decidable (dtLe a b) := by
  unfold dtLe; infer_instance

instance (a b : DateTime) : Decidable (dtLt a b) := by
  unfold dtLt; infer_instance

theorem dtLe_of_not_dtLt {a b : DateTime} (h : ¬ dtLt a b) : dtLe b a := by
  unfold dtLt at h
  unfold dtLe
  omega

theorem dtLe_refl (a : DateTime) : dtLe a a := by
  unfold dtLe; omega

/-- Days of year `y` strictly before month `m`. -/
def daysBeforeMonth (y m : Nat) : Nat :=
  (List.range (m - 1)).foldl (fun acc k => acc + daysInMonth y (k + 1)) 0

/-- Rata-die day number of a proleptic Gregorian date (0001-01-01 ↦ 1). -/
def toOrdinal (y m d : Nat) : Nat :=
  365 * (y - 1) + (y - 1) / 4 + (y - 1) / 400 + daysBeforeMonth y m + d
    - (y - 1) / 100

/-- Python `datetime.weekday()`: 0 = Monday … 6 = Sunday
(0001-01-01 is a Monday in the proleptic Gregorian calendar). -/
def DateTime.weekday (dt : DateTime) : Nat :=
  (toOrdinal dt.year dt.month dt.day + 6) % 7

/-- `app.models.recurrence.RecurrenceType`. -/
inductive RecurrenceType where
  | daily
  | weekly
  | monthly
  | yearly
  | custom
deriving DecidableEq, Repr

/-- `app.models.recurrence.RecurrencePattern` (persisted fields that the
service reads; `created_at` is never consulted by the calculator). -/
structure RecurrencePattern where
  id : Nat
  type : RecurrenceType
  interval : Nat
  days_of_week : Option (List Nat)
  day_of_month : Option Nat
  month_of_year : Option Nat
  end_date : Option DateTime
  user_id : String
deriving DecidableEq, Repr

/-- The field constraints declared on the `RecurrencePattern` model:
`interval` in [1,365], `day_of_month` in [1,31], `month_of_year` in [1,12],
weekday indices in [0,6], and a valid `end_date` timestamp. -/
def RecurrencePattern.WF (p : RecurrencePattern) : Prop :=
  1 ≤ p.interval ∧ p.interval ≤ 365 ∧
    (∀ l, p.days_of_week = some l → ∀ d ∈ l, d ≤ 6) ∧
    (∀ d, p.day_of_month = some d → 1 ≤ d ∧ d ≤ 31) ∧
    (∀ m, p.month_of_year = some m → 1 ≤ m ∧ m ≤ 12) ∧
    (∀ e, p.end_date = some e → e.Valid)

instance (p : RecurrencePattern) : Decidable p.WF := by
  unfold RecurrencePattern.WF; infer_instance

/-- Python `a or b` for `a : Optional[int]`: `b` when `a` is `None` or `0`
(both are falsy), otherwise the value of `a`. -/
def optOr (a : Option Nat) (b : Nat) : Nat :=
  match a with
  | some n => if n = 0 then b else n
  | none => b

/-- The loop `while month > 12: month -= 12; year += 1`, with an explicit
iteration bound (each iteration decreases `month` by 12, so `month` many
steps always suffice). -/
def rolloverFuel : Nat → Nat → Nat → Nat × Nat
  | 0, y, m => (y, m)
  | fuel + 1, y, m => if 12 < m then rolloverFuel fuel (y + 1) (m - 12) else (y, m)

/-- Year/month rollover used by `_next_monthly`. -/
def rollover (y m : Nat) : Nat × Nat :=
  rolloverFuel m y m

/-- `RecurrenceService._next_daily`. -/
def next_daily (fd : DateTime) (interval : Nat) : DateTime :=
  addDays fd interval

/-- The loop `for day in sorted_days: if day > current_weekday: return day`:
first list element strictly greater than `cw`. -/
def firstGreater : List Nat → Nat → Option Nat
  | [], _ => none
  | d :: ds, cw => if cw < d then some d else firstGreater ds cw

/-- `RecurrenceService._next_weekly`. -/
def next_weekly (fd : DateTime) (interval : Nat) (days : Option (List Nat)) :
    DateTime :=
  match days with
  | none => addDays fd (7 * interval)
  | some [] => addDays fd (7 * interval)
  | some (d :: ds) =>
    let sorted_days := List.insertionSort (· ≤ ·) (d :: ds)
    let cw := fd.weekday
    match firstGreater sorted_days cw with
    | some day => addDays fd (day - cw)
    | none =>
      let days_until_monday := if (7 - cw) % 7 = 0 then 7 else (7 - cw) % 7
      let next_week_start := addDays fd (days_until_monday + 7 * (interval - 1))
      addDays next_week_start sorted_days.headI

/-- `RecurrenceService._next_monthly`. -/
def next_monthly (fd : DateTime) (interval : Nat) (day_of_month : Option Nat) :
    DateTime :=
  let target_day := optOr day_of_month fd.day
  let ym := rollover fd.year (fd.month + interval)
  let last_day := daysInMonth ym.1 ym.2
  let actual_day := min target_day last_day
  { fd with year := ym.1, month := ym.2, day := actual_day }

/-- `RecurrenceService._next_yearly`. -/
def next_yearly (fd : DateTime) (interval : Nat)
    (month_of_year day_of_month : Option Nat) : DateTime :=
  let target_year := fd.year + interval
  let target_month := optOr month_of_year fd.month
  let td := optOr day_of_month fd.day
  let target_day :=
    if target_month = 2 ∧ td = 29 ∧ isleap target_year = false then 28 else td
  let last_day := daysInMonth target_year target_month
  { fd with year := target_year, month := target_month,
            day := min target_day last_day }

/-- `RecurrenceService._calculate_next_date`. -/
def calculate_next_date (p : RecurrencePattern) (fd : DateTime) : DateTime :=
  match p.type with
  | .daily => next_daily fd p.interval
  | .weekly => next_weekly fd p.interval p.days_of_week
  | .monthly => next_monthly fd p.interval p.day_of_month
  | .yearly => next_yearly fd p.interval p.month_of_year p.day_of_month
  | .custom => next_daily fd p.interval

/-- `RecurrenceService.calculate_next_occurrence`. -/
def calculate_next_occurrence (p : RecurrencePattern) (from_date : DateTime) :
    Option DateTime :=
  match p.end_date with
  | some e =>
    if dtLe e from_date then none
    else
      let next_date := calculate_next_date p from_date
      if dtLt e next_date then none else some next_date
  | none => some (calculate_next_date p from_date)

/-- `app.models.task.TaskPriority`. -/
inductive TaskPriority where
  | low
  | medium
  | high
  | urgent
deriving DecidableEq, Repr

/-- `app.models.task.Task` (the fields the recurrence service reads or
copies; `created_at`/`updated_at` bookkeeping is not consulted). -/
structure Task where
  id : Nat
  title : String
  description : String
  user_id : String
  is_complete : Bool
  due_date : Option DateTime
  priority : TaskPriority
  reminder_offset_minutes : Option Int
  recurrence_id : Option Nat
  parent_task_id : Option Nat
deriving DecidableEq, Repr

/-- `RecurrenceService.generate_next_task`.  The pattern store (the
`recurrence_patterns` table, reached through `self._get_pattern`) is a map
from id to pattern; `now` is `datetime.now(timezone.utc)`; `newId` is the
UUID generated for the new row. -/
def generate_next_task (store : Nat → Option RecurrencePattern)
    (now : DateTime) (newId : Nat) (completed_task : Task) : Option Task :=
  match completed_task.recurrence_id with
  | none => none
  | some rid =>
    match store rid with
    | none => none
    | some pattern =>
      let reference_date := completed_task.due_date.getD now
      match calculate_next_occurrence pattern reference_date with
      | none => none
      | some next_due_date =>
        some
          { id := newId
            title := completed_task.title
            description := completed_task.description
            user_id := completed_task.user_id
            is_complete := false
            due_date := some next_due_date
            priority := completed_task.priority
            reminder_offset_minutes := completed_task.reminder_offset_minutes
            recurrence_id := completed_task.recurrence_id
            parent_task_id :=
              some (completed_task.parent_task_id.getD completed_task.id) }

/-- `t'` was produced from `t` by one completion-triggered regeneration
(at some wall-clock time, with some fresh id). -/
inductive SuccOf (store : Nat → Option RecurrencePattern) : Task → Task → Prop
  | mk (now : DateTime) (newId : Nat) (t t' : Task) :
      generate_next_task store now newId t = some t' → SuccOf store t t'

/-- Concrete daily pattern used in the C4 witness. -/
def patD : RecurrencePattern := ⟨7, .daily, 1, none, none, none, none, "u"⟩

/-- Concrete pattern store used in the C4 witness. -/
def storeD : Nat → Option RecurrencePattern :=
  fun i => if i = 7 then some patD else none

/-- A completed recurring task. -/
def taskD : Task :=
  ⟨1, "T", "", "u", true, some ⟨2024, 1, 15, 36000⟩, .medium, some 30,
    some 7, none⟩

/-- The successor `generate_next_task` produces for `taskD`. -/
def taskD1 : Task :=
  ⟨5, "T", "", "u", false, some ⟨2024, 1, 16, 36000⟩, .medium, some 30,
    some 7, some 1⟩

theorem weekday_lt_seven (dt : DateTime) : dt.weekday < 7 :=
  Nat.mod_lt _ (by omega)

theorem firstGreater_spec {l : List Nat} (hs : List.Sorted (· ≤ ·) l)
    {cw : Nat} (hex : ∃ d ∈ l, cw < d) :
    ∃ m, firstGreater l cw = some m ∧ m ∈ l ∧ cw < m ∧
      ∀ d ∈ l, cw < d → m ≤ d := by
  induction l with
  | nil => simp at hex
  | cons a t ih =>
    by_cases h : cw < a
    · refine ⟨a, ?_, List.mem_cons_self a t, h, ?_⟩
      · simp [firstGreater, h]
      · intro d hd hcd
        rcases List.mem_cons.mp hd with rfl | hdt
        · exact Nat.le_refl _
        · exact List.rel_of_sorted_cons hs d hdt
    · have hex2 : ∃ d ∈ t, cw < d := by
        obtain ⟨d, hd, hcd⟩ := hex
        rcases List.mem_cons.mp hd with rfl | hdt
        · exact absurd hcd h
        · exact ⟨d, hdt, hcd⟩
      obtain ⟨m, h1, h2, h3, h4⟩ := ih hs.of_cons hex2
      refine ⟨m, ?_, List.mem_cons_of_mem a h2, h3, ?_⟩
      · simp [firstGreater, h, h1]
      · intro d hd hcd
        rcases List.mem_cons.mp hd with rfl | hdt
        · exact absurd hcd h
        · exact h4 d hdt hcd

theorem firstGreater_none {l : List Nat} {cw : Nat}
    (h : ∀ d ∈ l, ¬ cw < d) : firstGreater l cw = none := by
  induction l with
  | nil => rfl
  | cons a t ih =>
    have ha := h a (List.mem_cons_self a t)
    simp only [firstGreater, if_neg ha]
    exact ih fun d hd => h d (List.mem_cons_of_mem a hd)

theorem sorted_headI_min {l : List Nat} (hs : List.Sorted (· ≤ ·) l)
    (hne : l ≠ []) : l.headI ∈ l ∧ ∀ d ∈ l, l.headI ≤ d := by
  cases l with
  | nil => exact absurd rfl hne
  | cons a t =>
    refine ⟨List.mem_cons_self a t, ?_⟩
    intro d hd
    rcases List.mem_cons.mp hd with rfl | hdt
    · exact Nat.le_refl _
    · exact List.rel_of_sorted_cons hs d hdt

/-- C3: weekly recurrence — with no listed weekdays the date advances by
`interval` weeks; with listed weekdays it moves to the nearest listed day
strictly later in the current week when one exists (ignoring `interval`),
and otherwise to the earliest listed day of the week whose Monday begins
the `interval`-th subsequent week; Fri + [Mon,Wed,Fri] with interval 1
yields the following Monday. -/
theorem C3_weekly_selection :
    (∀ (fd : DateTime) (i : Nat),
      next_weekly fd i none = addDays fd (7 * i) ∧
      next_weekly fd i (some []) = addDays fd (7 * i)) ∧
    (∀ (fd : DateTime) (i : Nat) (l : List Nat), l ≠ [] →
      ((∃ d ∈ l, fd.weekday < d) →
        ∃ m ∈ l, fd.weekday < m ∧ (∀ d ∈ l, fd.weekday < d → m ≤ d) ∧
          next_weekly fd i (some l) = addDays fd (m - fd.weekday)) ∧
      ((∀ d ∈ l, ¬ fd.weekday < d) →
        ∃ m ∈ l, (∀ d ∈ l, m ≤ d) ∧
          next_weekly fd i (some l) =
            addDays
              (addDays fd
                ((if fd.weekday = 0 then 7 else 7 - fd.weekday) +
                  7 * (i - 1)))
              m)) ∧
    next_weekly ⟨2024, 1, 5, 3600⟩ 1 (some [0, 2, 4]) = ⟨2024, 1, 8, 3600⟩ ∧
    (⟨2024, 1, 5, 3600⟩ : DateTime).weekday = 4 := by
  refine ⟨fun fd i => ⟨rfl, rfl⟩, ?_, by decide, by decide⟩
  intro fd i l hne
  cases l with
  | nil => exact absurd rfl hne
  | cons d ds =>
    have hsort := List.sorted_insertionSort (· ≤ ·) (d :: ds)
    constructor
    · intro hex
      have hexS : ∃ x ∈ List.insertionSort (· ≤ ·) (d :: ds), fd.weekday < x := by
        obtain ⟨x, hx, hcx⟩ := hex
        exact ⟨x, (List.mem_insertionSort _).mpr hx, hcx⟩
      obtain ⟨m, hfg, hmS, hcm, hmin⟩ := firstGreater_spec hsort hexS
      refine ⟨m, (List.mem_insertionSort _).mp hmS, hcm, ?_, ?_⟩
      · intro x hx hcx
        exact hmin x ((List.mem_insertionSort _).mpr hx) hcx
      · simp only [next_weekly, hfg]
    · intro hall
      have hallS : ∀ x ∈ List.insertionSort (· ≤ ·) (d :: ds),
          ¬ fd.weekday < x :=
        fun x hx => hall x ((List.mem_insertionSort _).mp hx)
      have hfg := firstGreater_none hallS
      have hSne : List.insertionSort (· ≤ ·) (d :: ds) ≠ [] := by
        intro h0
        have hlen := (List.perm_insertionSort (· ≤ ·) (d :: ds)).length_eq
        rw [h0] at hlen
        simp at hlen
      obtain ⟨hmem, hmin⟩ := sorted_headI_min hsort hSne
      refine ⟨(List.insertionSort (· ≤ ·) (d :: ds)).headI,
        (List.mem_insertionSort _).mp hmem, ?_, ?_⟩
      · intro x hx
        exact hmin x ((List.mem_insertionSort _).mpr hx)
      · have hcw := weekday_lt_seven fd
        have hdum : (if (7 - fd.weekday) % 7 = 0 then 7
            else (7 - fd.weekday) % 7) =
            (if fd.weekday = 0 then 7 else 7 - fd.weekday) := by
          split_ifs <;> omega
        simp only [next_weekly, hfg, hdum]

/-- Witness for C3: Friday 2024-01-05 with days [Mon,Wed,Fri] has no later
listed day in its week, so the next-cycle branch applies. -/
theorem C3_weekly_selection_witness :
    ∃ m ∈ [0, 2, 4], (∀ d ∈ [0, 2, 4], m ≤ d) ∧
      next_weekly ⟨2024, 1, 5, 3600⟩ 1 (some [0, 2, 4]) =
        addDays
          (addDays ⟨2024, 1, 5, 3600⟩
            ((if (⟨2024, 1, 5, 3600⟩ : DateTime).weekday = 0 then 7
              else 7 - (⟨2024, 1, 5, 3600⟩ : DateTime).weekday) +
              7 * (1 - 1)))
          m :=
  (C3_weekly_selection.2.1 ⟨2024, 1, 5, 3600⟩ 1 [0, 2, 4] (by decide)).2
    (by decide)

theorem generate_parent_eq {store : Nat → Option RecurrencePattern}
    {now : DateTime} {newId : Nat} {t t' : Task}
    (h : generate_next_task store now newId t = some t') :
    t'.parent_task_id = some (t.parent_task_id.getD t.id) := by
  unfold generate_next_task at h
  cases hr : t.recurrence_id with
  | none => rw [hr] at h; exact absurd h (by simp)
  | some rid =>
    rw [hr] at h
    dsimp only at h
    cases hs : store rid with
    | none => rw [hs] at h; exact absurd h (by simp)
    | some pat =>
      rw [hs] at h
      dsimp only at h
      cases hc : calculate_next_occurrence pat (t.due_date.getD now) with
      | none => rw [hc] at h; exact absurd h (by simp)
      | some nd =>
        rw [hc] at h
        dsimp only at h
        rw [Option.some.injEq] at h
        rw [← h]

/-- C4: `generate_next_task` returns `None` exactly when the completed task
has no recurrence id, the pattern lookup fails, or the series has ended;
otherwise the successor task copies title/description/priority/offset/
recurrence id, is incomplete, is due at the next occurrence computed from
the completed task's due date (or now), and points to the completed task's
ancestor if set, else to the completed task itself — so every task of a
chain points to the first task of the series. -/
theorem C4_generate_next_task (store : Nat → Option RecurrencePattern) :
    (∀ (now : DateTime) (newId : Nat) (t : Task),
      (generate_next_task store now newId t = none ↔
        t.recurrence_id = none ∨
        (∃ rid, t.recurrence_id = some rid ∧ store rid = none) ∨
        (∃ rid pat, t.recurrence_id = some rid ∧ store rid = some pat ∧
          calculate_next_occurrence pat (t.due_date.getD now) = none)) ∧
      (∀ t', generate_next_task store now newId t = some t' →
        ∃ rid pat nd, t.recurrence_id = some rid ∧ store rid = some pat ∧
          calculate_next_occurrence pat (t.due_date.getD now) = some nd ∧
          t'.id = newId ∧ t'.is_complete = false ∧ t'.title = t.title ∧
          t'.description = t.description ∧ t'.user_id = t.user_id ∧
          t'.priority = t.priority ∧
          t'.reminder_offset_minutes = t.reminder_offset_minutes ∧
          t'.recurrence_id = t.recurrence_id ∧ t'.due_date = some nd ∧
          t'.parent_task_id = some (t.parent_task_id.getD t.id))) ∧
    (∀ t0 t', t0.parent_task_id = none →
      Relation.TransGen (SuccOf store) t0 t' →
        t'.parent_task_id = some t0.id) := by
  constructor
  · intro now newId t
    unfold generate_next_task
    cases hr : t.recurrence_id with
    | none =>
      refine ⟨by simp [hr], ?_⟩
      intro t' h
      simp at h
    | some rid =>
      dsimp only
      cases hs : store rid with
      | none =>
        refine ⟨by simp [hr, hs], ?_⟩
        intro t' h
        simp at h
      | some pat =>
        dsimp only
        cases hc : calculate_next_occurrence pat (t.due_date.getD now) with
        | none =>
          refine ⟨by simp [hr, hs, hc], ?_⟩
          intro t' h
          simp at h
        | some nd =>
          refine ⟨by simp [hr, hs, hc], ?_⟩
          intro t' h
          dsimp only at h
          rw [Option.some.injEq] at h
          subst h
          exact ⟨rid, pat, nd, rfl, hs, hc, rfl, rfl, rfl, rfl, rfl, rfl,
            rfl, rfl, rfl, rfl⟩
  · intro t0 t' h0 htg
    induction htg with
    | single h =>
      cases h with
      | mk now nid a b hgen =>
        rw [generate_parent_eq hgen, h0]
        rfl
    | tail hab hbc ih =>
      cases hbc with
      | mk now nid a b hgen =>
        rw [generate_parent_eq hgen, ih]
        rfl

/-- Witness for C4: a generated successor points back at the first task. -/
theorem C4_generate_next_task_witness :
    taskD1.parent_task_id = some taskD.id :=
  (C4_generate_next_task storeD).2 taskD taskD1 rfl
    (Relation.TransGen.single
      (SuccOf.mk ⟨2024, 1, 1, 0⟩ 5 taskD taskD1 (by decide)))

end TodoRec

namespace TodoRem

/-- `app.services.reminder_service.MAX_RETRY_ATTEMPTS`. -/
def MAX_RETRY_ATTEMPTS : Nat := 3

/-- `app.services.reminder_service.RETRY_DELAY_MINUTES` (defined in the
source but never read by any operation). -/
def RETRY_DELAY_MINUTES : List Nat := [1, 2, 4]

/-- `app.models.reminder.ReminderStatus`. -/
inductive ReminderStatus where
  | pending
  | sent
  | cancelled
  | failed
deriving DecidableEq, Repr

/-- `app.models.reminder.Reminder`.  Timestamps are instants in minutes on a
global timeline (the reminder service only ever subtracts a minute offset
from a timestamp and compares timestamps). -/
structure Reminder where
  id : Nat
  task_id : Nat
  user_id : String
  scheduled_time : Int
  status : ReminderStatus
  delivery_channel : String
  sent_at : Option Int
  error_message : Option String
  retry_count : Nat
deriving DecidableEq, Repr

/-- The fields of `app.models.task.Task` that the reminder service reads,
with the `due_date` timestamp embedded as an instant in minutes. -/
structure Task where
  id : Nat
  user_id : String
  title : String
  is_complete : Bool
  due_date : Option Int
  reminder_offset_minutes : Option Int
deriving DecidableEq, Repr

/-- SQLAlchemy `Result.scalar_one_or_none()` applied to the rows a query
matched: `none` row ↦ `none`, one row ↦ that row, several rows ↦ raises
`MultipleResultsFound` (embedded as `.error`). -/
def scalarOneOrNone (l : List α) : Except String (Option α) :=
  match l with
  | [] => .ok none
  | [a] => .ok (some a)
  | _ => .error "MultipleResultsFound"

/-- The rows of the `reminders` table matching
`task_id == tid AND status == PENDING` (the query in
`ReminderService._get_pending_reminder`). -/
def pendingFor (s : List Reminder) (tid : Nat) : List Reminder :=
  s.filter fun r => decide (r.task_id = tid ∧ r.status = ReminderStatus.pending)

/-- `ReminderService._get_pending_reminder`. -/
def getPendingReminder (s : List Reminder) (tid : Nat) :
    Except String (Option Reminder) :=
  scalarOneOrNone (pendingFor s tid)

/-- Committing an ORM-level mutation of one row: every row with the mutated
row's primary key takes its new value (keys are unique in any real table
state, which the theorems assume as `Nodup`). -/
def updateById (s : List Reminder) (r : Reminder) : List Reminder :=
  s.map fun x => if x.id = r.id then r else x

/-- First row with the given primary key. -/
def lookupId (s : List Reminder) (i : Nat) : Option Reminder :=
  s.find? fun x => decide (x.id = i)

/-- `ReminderService.schedule_reminder`.  `now` is `datetime.now`; `freshId`
is the UUID generated in case a new row is inserted.  Returns the
created/updated reminder (or `none` when no reminder is needed) together
with the table state after the commit. -/
def schedule_reminder (s : List Reminder) (now : Int) (freshId : Nat)
    (task : Task) (delivery_channel : String) :
    Except String (Option Reminder × List Reminder) :=
  match task.due_date with
  | none => .ok (none, s)
  | some due =>
    match task.reminder_offset_minutes with
    | none => .ok (none, s)
    | some offset =>
      let scheduled_time := due - offset
      if scheduled_time < now then .ok (none, s)
      else
        match getPendingReminder s task.id with
        | .error e => .error e
        | .ok (some existing) =>
          let existing' :=
            { existing with scheduled_time := scheduled_time,
                            delivery_channel := delivery_channel }
          .ok (some existing', updateById s existing')
        | .ok none =>
          let reminder : Reminder :=
            { id := freshId
              task_id := task.id
              user_id := task.user_id
              scheduled_time := scheduled_time
              status := .pending
              delivery_channel := delivery_channel
              sent_at := none
              error_message := none
              retry_count := 0 }
          .ok (some reminder, s ++ [reminder])

/-- `ReminderService.cancel_reminder`. -/
def cancel_reminder (s : List Reminder) (task_id : Nat) :
    Except String (Bool × List Reminder) :=
  match getPendingReminder s task_id with
  | .error e => .error e
  | .ok (some reminder) =>
    let reminder' := { reminder with status := ReminderStatus.cancelled }
    .ok (true, updateById s reminder')
  | .ok none => .ok (false, s)

/-- The `WHERE` clause of `ReminderService.get_due_reminders`:
(PENDING and due) or, when retries are included, (FAILED and retryable). -/
def duePred (now : Int) (include_retries : Bool) (r : Reminder) : Bool :=
  (decide (r.status = ReminderStatus.pending) &&
      decide (r.scheduled_time ≤ now)) ||
    (include_retries && decide (r.status = ReminderStatus.failed) &&
      decide (r.retry_count < MAX_RETRY_ATTEMPTS))

/-- Ordering relation of `ORDER BY scheduled_time`. -/
def schedLE (a b : Reminder) : Prop := a.scheduled_time ≤ b.scheduled_time

instance : DecidableRel schedLE := fun a b =>
  Int.decLe a.scheduled_time b.scheduled_time

/-- `ReminderService.get_due_reminders`: filter, order by `scheduled_time`,
cap at `limit`. -/
def get_due_reminders (s : List Reminder) (now : Int) (limit : Nat)
    (include_retries : Bool) : List Reminder :=
  (List.insertionSort schedLE (s.filter (duePred now include_retries))).take
    limit

/-- `ReminderService._mark_reminder_failed`, as a transformation of the
mutated row: increment `retry_count`, record the error, and flip to FAILED
once the maximum is reached. -/
def markFailedCore (r : Reminder) (error_message : String) : Reminder :=
  let r1 := { r with retry_count := r.retry_count + 1,
                     error_message := some error_message }
  if MAX_RETRY_ATTEMPTS ≤ r1.retry_count then
    { r1 with status := ReminderStatus.failed }
  else r1

/-- `ReminderService.mark_reminder_sent`. -/
def mark_reminder_sent (s : List Reminder) (now : Int) (reminder_id : Nat) :
    Except String (Bool × List Reminder) :=
  match scalarOneOrNone (s.filter fun x => decide (x.id = reminder_id)) with
  | .error e => .error e
  | .ok none => .ok (false, s)
  | .ok (some reminder) =>
    let reminder' :=
      { reminder with status := ReminderStatus.sent, sent_at := some now }
    .ok (true, updateById s reminder')

/-- `ReminderService.mark_reminder_failed`. -/
def mark_reminder_failed (s : List Reminder) (reminder_id : Nat)
    (error_message : String) : Except String (Bool × List Reminder) :=
  match scalarOneOrNone (s.filter fun x => decide (x.id = reminder_id)) with
  | .error e => .error e
  | .ok none => .ok (false, s)
  | .ok (some reminder) =>
    .ok (true, updateById s (markFailedCore reminder error_message))

/-- Outcome of one sweep (`ReminderService.process_due_reminders`):
the returned count, the reminder-due events published to the broker
(identified by reminder id), and the table state after the final commit. -/
structure SweepResult where
  processed : Nat
  events : List Nat
  state : List Reminder
deriving DecidableEq, Repr

/-- One iteration of the sweep loop body for reminder `r`: the updated row,
plus `some r.id` when a reminder-due event was published for it.
`tasks` is the `tasks` table keyed by id; `publish` is the broker call,
returning `none` on success and the raised error's message on failure. -/
def processOne (tasks : Nat → Option Task)
    (publish : Reminder → Task → Option String) (r : Reminder) :
    Reminder × Option Nat :=
  match tasks r.task_id with
  | none =>
    ({ r with status := ReminderStatus.cancelled,
              error_message := some "Task not found" }, none)
  | some task =>
    if task.is_complete then
      ({ r with status := ReminderStatus.cancelled,
                error_message := some "Task already completed" }, none)
    else
      match publish r task with
      | none => (r, some r.id)
      | some e => (markFailedCore r e, none)

/-- Folding one loop iteration into the running sweep outcome. -/
def sweepStep (tasks : Nat → Option Task)
    (publish : Reminder → Task → Option String) (acc : SweepResult)
    (r : Reminder) : SweepResult :=
  let (r', ev) := processOne tasks publish r
  { processed := acc.processed + (if ev.isSome then 1 else 0)
    events := acc.events ++ ev.toList
    state := updateById acc.state r' }

/-- `ReminderService.process_due_reminders`. -/
def process_due_reminders (tasks : Nat → Option Task)
    (publish : Reminder → Task → Option String) (s : List Reminder)
    (now : Int) : SweepResult :=
  let reminders := get_due_reminders s now 100 true
  reminders.foldl (sweepStep tasks publish) ⟨0, [], s⟩

/-- Whether the sweep loop body reaches the publish step for reminder `r`
and the publish succeeds: its task exists, is not complete, and the broker
call does not raise. -/
def publishOk (tasks : Nat → Option Task)
    (publish : Reminder → Task → Option String) (r : Reminder) : Bool :=
  match tasks r.task_id with
  | none => false
  | some t => !t.is_complete && (publish r t).isNone

/-- State invariant maintained by `schedule_reminder`: primary keys are
unique and each task has at most one PENDING reminder. -/
def ScheduleInv (s : List Reminder) : Prop :=
  (s.map Reminder.id).Nodup ∧ ∀ tid, (pendingFor s tid).length ≤ 1

/-- A sequence of `schedule_reminder` calls, each given by
(now, fresh id, task, channel); an exception aborts the sequence. -/
def runSchedules :
    List (Int × Nat × Task × String) → List Reminder →
      Except String (List Reminder)
  | [], s => .ok s
  | (now, fid, t, ch) :: rest, s =>
    match schedule_reminder s now fid t ch with
    | .error e => .error e
    | .ok (_, s') => runSchedules rest s'

/-- Every FAILED reminder has exhausted its retries. -/
def FailedInv (s : List Reminder) : Prop :=
  ∀ r ∈ s, r.status = ReminderStatus.failed →
    MAX_RETRY_ATTEMPTS ≤ r.retry_count

/-- Reminder-table states reachable from the empty table through the
public operations of the reminder service. -/
inductive ReachableR : List Reminder → Prop where
  | nil : ReachableR []
  | sched (s : List Reminder) (now : Int) (freshId : Nat) (task : Task)
      (ch : String) (res : Option Reminder) (s' : List Reminder) :
      ReachableR s →
      schedule_reminder s now freshId task ch = .ok (res, s') → ReachableR s'
  | cancel (s : List Reminder) (tid : Nat) (b : Bool) (s' : List Reminder) :
      ReachableR s → cancel_reminder s tid = .ok (b, s') → ReachableR s'
  | msent (s : List Reminder) (now : Int) (rid : Nat) (b : Bool)
      (s' : List Reminder) :
      ReachableR s → mark_reminder_sent s now rid = .ok (b, s') →
      ReachableR s'
  | mfailed (s : List Reminder) (rid : Nat) (err : String) (b : Bool)
      (s' : List Reminder) :
      ReachableR s → mark_reminder_failed s rid err = .ok (b, s') →
      ReachableR s'
  | sweep (s : List Reminder) (tasks : Nat → Option Task)
      (publish : Reminder → Task → Option String) (now : Int) :
      ReachableR s →
      ReachableR (process_due_reminders tasks publish s now).state

/-- A fresh pending reminder (used in the C8 counterexample). -/
def cexR0 : Reminder := ⟨1, 1, "u", 0, .pending, "in-app", none, none, 0⟩

/-- `cexR0` after one failed delivery attempt. -/
def cexR1 : Reminder :=
  ⟨1, 1, "u", 0, .pending, "in-app", none, some "boom", 1⟩

/-- `cexR0` after two failed delivery attempts. -/
def cexR2 : Reminder :=
  ⟨1, 1, "u", 0, .pending, "in-app", none, some "boom", 2⟩

/-- `cexR0` after three failed delivery attempts: FAILED (terminal). -/
def cexR3 : Reminder :=
  ⟨1, 1, "u", 0, .failed, "in-app", none, some "boom", 3⟩

/-- `cexR3` after `mark_reminder_sent`: the FAILED reminder became SENT. -/
def cexR4 : Reminder :=
  ⟨1, 1, "u", 0, .sent, "in-app", some 9, some "boom", 3⟩

/-- A SENT reminder that already went through two failed attempts. -/
def cexS2 : Reminder := ⟨2, 2, "u", 0, .sent, "in-app", some 5, none, 2⟩

/-- `cexS2` after `mark_reminder_failed`: the SENT reminder became FAILED. -/
def cexS3 : Reminder :=
  ⟨2, 2, "u", 0, .failed, "in-app", some 5, some "late", 3⟩

end TodoRem

namespace TodoRec

theorem dtLt_of_not_dtLe {a b : DateTime} (h : ¬ dtLe a b) : dtLt b a := by
  unfold dtLe at h
  unfold dtLt
  omega

theorem succDay_tod (dt : DateTime) : (succDay dt).tod = dt.tod := by
  unfold succDay
  split
  · rfl
  · split <;> rfl

theorem addDays_tod (dt : DateTime) (n : Nat) : (addDays dt n).tod = dt.tod := by
  induction n with
  | zero => rfl
  | succ k ih => rw [addDays, succDay_tod, ih]

theorem one_le_daysInMonth (y m : Nat) : 1 ≤ daysInMonth y m := by
  unfold daysInMonth
  split_ifs <;> omega

theorem succDay_valid {dt : DateTime} (h : dt.Valid) : (succDay dt).Valid := by
  obtain ⟨y, m, d, t⟩ := dt
  obtain ⟨h1, h2, h3, h4, h5, h6⟩ := h
  have ha := one_le_daysInMonth y (m + 1)
  have hb := one_le_daysInMonth (y + 1) 1
  simp only [DateTime.Valid, succDay] at *
  split_ifs with hd hm <;> dsimp only <;> omega

theorem addDays_valid {dt : DateTime} (h : dt.Valid) (n : Nat) :
    (addDays dt n).Valid := by
  induction n with
  | zero => exact h
  | succ k ih => exact succDay_valid ih

theorem optOr_pos {a : Option Nat} {b : Nat} (hb : 1 ≤ b) : 1 ≤ optOr a b := by
  cases a with
  | none => exact hb
  | some n =>
    simp only [optOr]
    split_ifs <;> omega

theorem rolloverFuel_spec (fuel : Nat) :
    ∀ y m, 1 ≤ m → m ≤ 12 * fuel + 12 →
      y ≤ (rolloverFuel fuel y m).1 ∧ 1 ≤ (rolloverFuel fuel y m).2 ∧
        (rolloverFuel fuel y m).2 ≤ 12 := by
  induction fuel with
  | zero =>
    intro y m h1 h2
    simp only [rolloverFuel]
    omega
  | succ k ih =>
    intro y m h1 h2
    rw [rolloverFuel]
    split_ifs with h
    · have := ih (y + 1) (m - 12) (by omega) (by omega)
      exact ⟨by omega, this.2⟩
    · exact ⟨le_refl y, by omega⟩

theorem rollover_spec {m : Nat} (y : Nat) (h : 1 ≤ m) :
    y ≤ (rollover y m).1 ∧ 1 ≤ (rollover y m).2 ∧ (rollover y m).2 ≤ 12 :=
  rolloverFuel_spec m y m h (by omega)

theorem next_monthly_spec {fd : DateTime} (hfd : fd.Valid) (i : Nat)
    (dom : Option Nat) :
    (next_monthly fd i dom).Valid ∧
    (next_monthly fd i dom).year = (rollover fd.year (fd.month + i)).1 ∧
    (next_monthly fd i dom).month = (rollover fd.year (fd.month + i)).2 ∧
    (next_monthly fd i dom).day =
      min (optOr dom fd.day)
        (daysInMonth (rollover fd.year (fd.month + i)).1
          (rollover fd.year (fd.month + i)).2) ∧
    (next_monthly fd i dom).tod = fd.tod := by
  obtain ⟨y, m, d, t⟩ := fd
  simp only [DateTime.Valid] at hfd
  obtain ⟨h1, h2, h3, h4, h5, h6⟩ := hfd
  have hro := rollover_spec y (show 1 ≤ m + i by omega)
  have ht : 1 ≤ optOr dom d := optOr_pos h4
  have hl := one_le_daysInMonth (rollover y (m + i)).1 (rollover y (m + i)).2
  simp only [next_monthly, DateTime.Valid]
  refine ⟨⟨by omega, hro.2.1, hro.2.2, le_min ht hl, min_le_right _ _, h6⟩,
    ?_, ?_, ?_, ?_⟩ <;> trivial

theorem next_yearly_spec {fd : DateTime} (hfd : fd.Valid) (i : Nat)
    (moy dom : Option Nat) (hmoy : ∀ m', moy = some m' → m' ≤ 12) :
    (next_yearly fd i moy dom).Valid ∧
    (next_yearly fd i moy dom).year = fd.year + i ∧
    (next_yearly fd i moy dom).month = optOr moy fd.month ∧
    (next_yearly fd i moy dom).tod = fd.tod := by
  obtain ⟨y, m, d, t⟩ := fd
  simp only [DateTime.Valid] at hfd
  obtain ⟨h1, h2, h3, h4, h5, h6⟩ := hfd
  have hm1 : 1 ≤ optOr moy m := optOr_pos h2
  have hm2 : optOr moy m ≤ 12 := by
    cases hmo : moy with
    | none => exact h3
    | some m' =>
      have := hmoy m' hmo
      simp only [optOr]
      split_ifs <;> omega
  have htd : 1 ≤ optOr dom d := optOr_pos h4
  have hl := one_le_daysInMonth (y + i) (optOr moy m)
  simp only [next_yearly, DateTime.Valid]
  refine ⟨⟨by omega, hm1, hm2, ?_, min_le_right _ _, h6⟩, ?_, ?_, ?_⟩
  · split_ifs <;> omega
  · trivial
  · trivial
  · trivial

theorem next_weekly_tod (fd : DateTime) (i : Nat) (days : Option (List Nat)) :
    (next_weekly fd i days).tod = fd.tod := by
  unfold next_weekly
  match days with
  | none => exact addDays_tod fd _
  | some [] => exact addDays_tod fd _
  | some (d :: ds) =>
    dsimp only
    split
    · exact addDays_tod fd _
    · rw [addDays_tod, addDays_tod]

theorem calculate_next_date_tod (p : RecurrencePattern) (fd : DateTime) :
    (calculate_next_date p fd).tod = fd.tod := by
  unfold calculate_next_date
  cases p.type with
  | daily => exact addDays_tod fd _
  | weekly => exact next_weekly_tod fd _ _
  | monthly => rfl
  | yearly => rfl
  | custom => exact addDays_tod fd _

/-- C1: `calculate_next_occurrence` returns `None` exactly when an
`end_date` is set and either `from_date >= end_date` or the newly computed
date is strictly greater than `end_date`; any date it does return is the
computed next date and carries the time-of-day of `from_date`. -/
theorem C1_calculate_next_occurrence_contract (p : RecurrencePattern)
    (fd : DateTime) (hp : p.WF) (hfd : fd.Valid) :
    (calculate_next_occurrence p fd = none ↔
      ∃ e, p.end_date = some e ∧
        (dtLe e fd ∨ dtLt e (calculate_next_date p fd))) ∧
    ∀ d, calculate_next_occurrence p fd = some d →
      d = calculate_next_date p fd ∧ d.tod = fd.tod := by
  unfold calculate_next_occurrence
  cases he : p.end_date with
  | none =>
    refine ⟨by simp, ?_⟩
    intro d hd
    simp only [Option.some.injEq] at hd
    exact ⟨hd.symm, hd ▸ calculate_next_date_tod p fd⟩
  | some e =>
    dsimp only
    split_ifs with h1 h2
    · exact ⟨by simp [h1], by simp⟩
    · exact ⟨by simp [h2], by simp⟩
    · refine ⟨?_, ?_⟩
      · simp only [false_iff]
        rintro ⟨e', he', hor⟩
        rw [Option.some.injEq] at he'
        subst he'
        exact hor.elim h1 h2
      · intro d hd
        simp only [Option.some.injEq] at hd
        exact ⟨hd.symm, hd ▸ calculate_next_date_tod p fd⟩

/-- Witness for C1 at a concrete daily pattern and date. -/
theorem C1_calculate_next_occurrence_contract_witness :
    (calculate_next_occurrence
        ⟨1, .daily, 1, none, none, none, some ⟨2024, 1, 20, 0⟩, "u"⟩
        ⟨2024, 1, 19, 36000⟩ = none ↔
      ∃ e, (some ⟨2024, 1, 20, 0⟩ : Option DateTime) = some e ∧
        (dtLe e ⟨2024, 1, 19, 36000⟩ ∨
          dtLt e (calculate_next_date
            ⟨1, .daily, 1, none, none, none, some ⟨2024, 1, 20, 0⟩, "u"⟩
            ⟨2024, 1, 19, 36000⟩))) ∧
    ∀ d, calculate_next_occurrence
        ⟨1, .daily, 1, none, none, none, some ⟨2024, 1, 20, 0⟩, "u"⟩
        ⟨2024, 1, 19, 36000⟩ = some d →
      d = calculate_next_date
        ⟨1, .daily, 1, none, none, none, some ⟨2024, 1, 20, 0⟩, "u"⟩
        ⟨2024, 1, 19, 36000⟩ ∧ d.tod = 36000 :=
  C1_calculate_next_occurrence_contract
    ⟨1, .daily, 1, none, none, none, some ⟨2024, 1, 20, 0⟩, "u"⟩
    ⟨2024, 1, 19, 36000⟩ (by decide) (by decide)

/-- C2: monthly/yearly occurrence computation clamps the target day to the
last day of the resulting month (with 12-month rollover for monthly and the
Feb-29 rule for yearly) and never produces a calendar-invalid date;
includes the boundary examples from the claim. -/
theorem C2_monthly_yearly_clamping :
    (∀ (fd : DateTime) (i : Nat) (dom : Option Nat), fd.Valid →
      (next_monthly fd i dom).Valid ∧
      (next_monthly fd i dom).day ≤
        daysInMonth (next_monthly fd i dom).year (next_monthly fd i dom).month ∧
      (next_monthly fd i dom).year = (rollover fd.year (fd.month + i)).1 ∧
      (next_monthly fd i dom).month = (rollover fd.year (fd.month + i)).2 ∧
      (next_monthly fd i dom).day =
        min (optOr dom fd.day)
          (daysInMonth (rollover fd.year (fd.month + i)).1
            (rollover fd.year (fd.month + i)).2)) ∧
    (∀ (fd : DateTime) (i : Nat) (moy dom : Option Nat), fd.Valid →
      (∀ m', moy = some m' → m' ≤ 12) →
      (next_yearly fd i moy dom).Valid ∧
      (next_yearly fd i moy dom).day ≤
        daysInMonth (next_yearly fd i moy dom).year
          (next_yearly fd i moy dom).month ∧
      (next_yearly fd i moy dom).year = fd.year + i) ∧
    next_monthly ⟨2024, 3, 31, 0⟩ 1 (some 31) = ⟨2024, 4, 30, 0⟩ ∧
    next_monthly ⟨2024, 1, 30, 0⟩ 1 (some 30) = ⟨2024, 2, 29, 0⟩ ∧
    next_monthly ⟨2023, 1, 30, 0⟩ 1 (some 30) = ⟨2023, 2, 28, 0⟩ ∧
    next_yearly ⟨2024, 2, 29, 0⟩ 1 (some 2) (some 29) = ⟨2025, 2, 28, 0⟩ := by
  refine ⟨?_, ?_, by decide, by decide, by decide, by decide⟩
  · intro fd i dom hfd
    obtain ⟨hv, hy, hm, hd, ht⟩ := next_monthly_spec hfd i dom
    exact ⟨hv, hv.2.2.2.2.1, hy, hm, hd⟩
  · intro fd i moy dom hfd hmoy
    obtain ⟨hv, hy, hm, ht⟩ := next_yearly_spec hfd i moy dom hmoy
    exact ⟨hv, hv.2.2.2.2.1, hy⟩

/-- Witness for C2 at a concrete monthly step. -/
theorem C2_monthly_yearly_clamping_witness :
    (next_monthly ⟨2024, 6, 15, 0⟩ 1 (some 31)).Valid ∧
    (next_monthly ⟨2024, 6, 15, 0⟩ 1 (some 31)).day ≤
      daysInMonth (next_monthly ⟨2024, 6, 15, 0⟩ 1 (some 31)).year
        (next_monthly ⟨2024, 6, 15, 0⟩ 1 (some 31)).month :=
  have h := C2_monthly_yearly_clamping.1 ⟨2024, 6, 15, 0⟩ 1 (some 31) (by decide)
  ⟨h.1, h.2.1⟩

/-- C9 counterexample: a daily pattern with `end_date = 2024-01-02T00:00`
and `from_date = 2024-01-01T00:00` yields the occurrence
`2024-01-02T00:00`, which is not strictly before the end date — the code
only rejects computed dates strictly greater than `end_date`. -/
theorem C9_counterexample :
    calculate_next_occurrence
        ⟨1, .daily, 1, none, none, none, some ⟨2024, 1, 2, 0⟩, "u"⟩
        ⟨2024, 1, 1, 0⟩ = some ⟨2024, 1, 2, 0⟩ ∧
    ¬ dtLt (⟨2024, 1, 2, 0⟩ : DateTime) ⟨2024, 1, 2, 0⟩ := by
  constructor
  · decide
  · decide

/-- C9 amended: with `end_date` set, any returned occurrence is at most
`end_date` (never strictly after it), and `from_date` itself must have been
strictly before `end_date`; a computed date exactly equal to `end_date` is
returned. -/
theorem C9_amended_no_occurrence_after_end (p : RecurrencePattern)
    (e fd d : DateTime) (he : p.end_date = some e)
    (hd : calculate_next_occurrence p fd = some d) :
    dtLe d e ∧ dtLt fd e := by
  unfold calculate_next_occurrence at hd
  rw [he] at hd
  dsimp only at hd
  split_ifs at hd with h1 h2
  · simp only [Option.some.injEq] at hd
    subst hd
    exact ⟨dtLe_of_not_dtLt h2, dtLt_of_not_dtLe h1⟩

/-- Witness for the amended C9 at a concrete pattern. -/
theorem C9_amended_no_occurrence_after_end_witness :
    dtLe (⟨2024, 1, 2, 0⟩ : DateTime) ⟨2024, 1, 2, 0⟩ ∧
    dtLt (⟨2024, 1, 1, 0⟩ : DateTime) ⟨2024, 1, 2, 0⟩ :=
  C9_amended_no_occurrence_after_end
    ⟨1, .daily, 1, none, none, none, some ⟨2024, 1, 2, 0⟩, "u"⟩
    ⟨2024, 1, 2, 0⟩ ⟨2024, 1, 1, 0⟩ ⟨2024, 1, 2, 0⟩ rfl (by decide)

end TodoRec

namespace TodoRem

theorem markFailedCore_id (r : Reminder) (e : String) :
    (markFailedCore r e).id = r.id := by
  unfold markFailedCore
  dsimp only
  split_ifs <;> rfl

theorem markFailedCore_task_id (r : Reminder) (e : String) :
    (markFailedCore r e).task_id = r.task_id := by
  unfold markFailedCore
  dsimp only
  split_ifs <;> rfl

theorem markFailedCore_retry (r : Reminder) (e : String) :
    (markFailedCore r e).retry_count = r.retry_count + 1 := by
  unfold markFailedCore
  dsimp only
  split_ifs <;> rfl

theorem markFailedCore_error (r : Reminder) (e : String) :
    (markFailedCore r e).error_message = some e := by
  unfold markFailedCore
  dsimp only
  split_ifs <;> rfl

theorem markFailedCore_status (r : Reminder) (e : String) :
    (markFailedCore r e).status =
      if MAX_RETRY_ATTEMPTS ≤ r.retry_count + 1 then ReminderStatus.failed
      else r.status := by
  unfold markFailedCore
  dsimp only
  split_ifs <;> rfl

theorem updateById_map_id (s : List Reminder) (r : Reminder) :
    (updateById s r).map Reminder.id = s.map Reminder.id := by
  induction s with
  | nil => rfl
  | cons x t ih =>
    simp only [updateById, List.map_cons] at ih ⊢
    rw [ih]
    congr 1
    split_ifs with h
    · exact h.symm
    · rfl

theorem lookupId_updateById_ne (s : List Reminder) (r : Reminder) (i : Nat)
    (h : r.id ≠ i) : lookupId (updateById s r) i = lookupId s i := by
  induction s with
  | nil => rfl
  | cons x t ih =>
    simp only [updateById, lookupId, List.map_cons, List.find?_cons] at ih ⊢
    by_cases hx : x.id = r.id
    · rw [if_pos hx]
      have h1 : decide (r.id = i) = false := decide_eq_false h
      have h2 : decide (x.id = i) = false := decide_eq_false (hx ▸ h)
      rw [h1, h2]
      exact ih
    · rw [if_neg hx]
      cases hdec : decide (x.id = i) <;> simp [ih]

theorem lookupId_updateById_self (s : List Reminder) (r : Reminder)
    (h : r.id ∈ s.map Reminder.id) :
    lookupId (updateById s r) r.id = some r := by
  induction s with
  | nil => simp at h
  | cons x t ih =>
    simp only [updateById, lookupId, List.map_cons, List.find?_cons] at ih ⊢
    by_cases hx : x.id = r.id
    · rw [if_pos hx]
      simp
    · rw [if_neg hx]
      have h2 : decide (x.id = r.id) = false := decide_eq_false hx
      rw [h2]
      rcases List.mem_cons.mp h with heq | hmem
      · exact absurd heq.symm hx
      · exact ih hmem

theorem lookupId_of_mem_nodup {s : List Reminder} {r : Reminder}
    (hN : (s.map Reminder.id).Nodup) (h : r ∈ s) :
    lookupId s r.id = some r := by
  induction s with
  | nil => simp at h
  | cons x t ih =>
    simp only [lookupId, List.find?_cons]
    rcases List.mem_cons.mp h with rfl | hmem
    · simp
    · have hne : x.id ≠ r.id := by
        intro he
        have : r.id ∈ t.map Reminder.id := List.mem_map_of_mem _ hmem
        rw [← he] at this
        exact (List.nodup_cons.mp (by simpa using hN)).1 this
      have h2 : decide (x.id = r.id) = false := decide_eq_false hne
      rw [h2]
      exact ih (List.nodup_cons.mp (by simpa using hN)).2 hmem

theorem mem_updateById_of_ne {s : List Reminder} {r x : Reminder}
    (hx : x ∈ s) (h : x.id ≠ r.id) : x ∈ updateById s r := by
  unfold updateById
  have : x = (fun y => if y.id = r.id then r else y) x := by
    simp [h]
  rw [this]
  exact List.mem_map_of_mem _ hx

theorem duePred_of_mem_get_due {s : List Reminder} {now : Int} {limit : Nat}
    {ir : Bool} {r : Reminder} (h : r ∈ get_due_reminders s now limit ir) :
    duePred now ir r = true := by
  unfold get_due_reminders at h
  have h1 := List.mem_of_mem_take h
  have h2 := (List.mem_insertionSort _).mp h1
  exact List.of_mem_filter h2

theorem mem_of_mem_get_due {s : List Reminder} {now : Int} {limit : Nat}
    {ir : Bool} {r : Reminder} (h : r ∈ get_due_reminders s now limit ir) :
    r ∈ s := by
  unfold get_due_reminders at h
  have h1 := List.mem_of_mem_take h
  have h2 := (List.mem_insertionSort _).mp h1
  exact List.mem_of_mem_filter h2

/-- C6: each `_mark_reminder_failed` increments `retry_count` and records
the error; the status flips to FAILED exactly when the incremented count
reaches `MAX_RETRY_ATTEMPTS = 3` and otherwise stays PENDING; three calls
on a fresh pending reminder make it FAILED and no longer selected by
`get_due_reminders`. -/
theorem C6_mark_failed_retry :
    (∀ (r : Reminder) (err : String), r.status = ReminderStatus.pending →
      (markFailedCore r err).retry_count = r.retry_count + 1 ∧
      (markFailedCore r err).error_message = some err ∧
      ((markFailedCore r err).status = ReminderStatus.failed ↔
        MAX_RETRY_ATTEMPTS ≤ r.retry_count + 1) ∧
      (r.retry_count + 1 < MAX_RETRY_ATTEMPTS →
        (markFailedCore r err).status = ReminderStatus.pending)) ∧
    (∀ (r : Reminder) (e1 e2 e3 : String),
      r.status = ReminderStatus.pending → r.retry_count = 0 →
      (markFailedCore (markFailedCore (markFailedCore r e1) e2) e3).status =
        ReminderStatus.failed ∧
      (markFailedCore (markFailedCore (markFailedCore r e1) e2)
        e3).retry_count = MAX_RETRY_ATTEMPTS ∧
      ∀ (s : List Reminder) (now : Int) (limit : Nat),
        markFailedCore (markFailedCore (markFailedCore r e1) e2) e3 ∉
          get_due_reminders s now limit true) := by
  constructor
  · intro r err hp
    refine ⟨markFailedCore_retry r err, markFailedCore_error r err, ?_, ?_⟩
    · rw [markFailedCore_status]
      split_ifs with h
      · simp [h]
      · simp [hp, h]
    · intro hlt
      rw [markFailedCore_status, if_neg (by omega), hp]
  · intro r e1 e2 e3 hp h0
    have hr1 := markFailedCore_retry r e1
    have hr2 := markFailedCore_retry (markFailedCore r e1) e2
    have hr3 := markFailedCore_retry (markFailedCore (markFailedCore r e1) e2) e3
    have hM : MAX_RETRY_ATTEMPTS = 3 := rfl
    have hstat :
        (markFailedCore (markFailedCore (markFailedCore r e1) e2) e3).status =
          ReminderStatus.failed := by
      rw [markFailedCore_status, if_pos]
      rw [hr2, hr1, h0]
      decide
    refine ⟨hstat, by omega, ?_⟩
    intro s now limit hmem
    have hpred := duePred_of_mem_get_due hmem
    have hretry :
        (markFailedCore (markFailedCore (markFailedCore r e1) e2)
          e3).retry_count = 3 := by
      omega
    simp [duePred, hstat, hretry, MAX_RETRY_ATTEMPTS] at hpred

/-- Witness for C6 at a concrete pending reminder. -/
theorem C6_mark_failed_retry_witness :
    (markFailedCore
      ⟨1, 1, "u", 0, ReminderStatus.pending, "in-app", none, none, 0⟩
      "boom").retry_count = 0 + 1 ∧
    (markFailedCore
      ⟨1, 1, "u", 0, ReminderStatus.pending, "in-app", none, none, 0⟩
      "boom").error_message = some "boom" ∧
    ((markFailedCore
      ⟨1, 1, "u", 0, ReminderStatus.pending, "in-app", none, none, 0⟩
      "boom").status = ReminderStatus.failed ↔ MAX_RETRY_ATTEMPTS ≤ 0 + 1) ∧
    (0 + 1 < MAX_RETRY_ATTEMPTS →
      (markFailedCore
        ⟨1, 1, "u", 0, ReminderStatus.pending, "in-app", none, none, 0⟩
        "boom").status = ReminderStatus.pending) :=
  C6_mark_failed_retry.1
    ⟨1, 1, "u", 0, ReminderStatus.pending, "in-app", none, none, 0⟩
    "boom" rfl

end TodoRem

namespace TodoRem

theorem scalarOneOrNone_of_short {α : Type} {l : List α} (h : l.length ≤ 1) :
    scalarOneOrNone l = .ok l.head? := by
  match l with
  | [] => rfl
  | [a] => rfl
  | a :: b :: t => simp at h

theorem pendingFor_append (s t : List Reminder) (tid : Nat) :
    pendingFor (s ++ t) tid = pendingFor s tid ++ pendingFor t tid :=
  List.filter_append _ _

theorem filter_length_map_eq {f : Reminder → Reminder}
    {p : Reminder → Bool} {s : List Reminder}
    (h : ∀ x ∈ s, p (f x) = p x) :
    ((s.map f).filter p).length = (s.filter p).length := by
  induction s with
  | nil => rfl
  | cons x t ih =>
    simp only [List.map_cons, List.filter_cons]
    rw [h x (List.mem_cons_self x t)]
    have ih2 := ih fun y hy => h y (List.mem_cons_of_mem x hy)
    split_ifs <;> simp [ih2]

theorem pendingFor_updateById_length {s : List Reminder} {r' : Reminder}
    (h : ∀ x ∈ s, x.id = r'.id →
      x.task_id = r'.task_id ∧ x.status = r'.status) (tid : Nat) :
    (pendingFor (updateById s r') tid).length = (pendingFor s tid).length := by
  unfold pendingFor updateById
  apply filter_length_map_eq
  intro x hx
  by_cases hid : x.id = r'.id
  · rw [if_pos hid]
    obtain ⟨h1, h2⟩ := h x hx hid
    rw [← h1, ← h2]
  · rw [if_neg hid]

theorem schedule_reminder_step {s : List Reminder} (hInv : ScheduleInv s)
    (now : Int) (freshId : Nat) (task : Task) (ch : String)
    (hfresh : freshId ∉ s.map Reminder.id) :
    ∃ res s', schedule_reminder s now freshId task ch = .ok (res, s') ∧
      ScheduleInv s' ∧
      (∀ i, i ∈ s'.map Reminder.id → i ∈ s.map Reminder.id ∨ i = freshId) ∧
      ((task.due_date = none ∨ task.reminder_offset_minutes = none ∨
          (∃ due off, task.due_date = some due ∧
            task.reminder_offset_minutes = some off ∧ due - off < now)) →
        res = none ∧ s' = s) ∧
      (∀ due off, task.due_date = some due →
        task.reminder_offset_minutes = some off → ¬ due - off < now →
        ∃ r, res = some r ∧ r.status = ReminderStatus.pending ∧
          r.task_id = task.id ∧ r.scheduled_time = due - off ∧
          (pendingFor s' task.id).length = 1 ∧
          (pendingFor s task.id = [] → s' = s ++ [r]) ∧
          ((pendingFor s task.id).length = 1 → s'.length = s.length)) := by
  obtain ⟨hN, hP⟩ := hInv
  unfold schedule_reminder
  cases hd : task.due_date with
  | none =>
    refine ⟨none, s, rfl, ⟨hN, hP⟩, fun i hi => .inl hi,
      fun _ => ⟨rfl, rfl⟩, ?_⟩
    intro due off hdue hoff hnot
    cases hdue
  | some due =>
    dsimp only
    cases ho : task.reminder_offset_minutes with
    | none =>
      refine ⟨none, s, rfl, ⟨hN, hP⟩, fun i hi => .inl hi,
        fun _ => ⟨rfl, rfl⟩, ?_⟩
      intro due2 off2 hdue2 hoff2 hnot
      cases hoff2
    | some off =>
      dsimp only
      split_ifs with hpast
      · refine ⟨none, s, rfl, ⟨hN, hP⟩, fun i hi => .inl hi,
          fun _ => ⟨rfl, rfl⟩, ?_⟩
        intro due2 off2 hdue2 hoff2 hnot
        rw [Option.some.injEq] at hdue2
        rw [Option.some.injEq] at hoff2
        subst hdue2
        subst hoff2
        exact absurd hpast hnot
      · have hple := hP task.id
        cases hpf : pendingFor s task.id with
        | nil =>
          have hg : getPendingReminder s task.id = .ok none := by
            unfold getPendingReminder
            rw [hpf]
            rfl
          rw [hg]
          refine ⟨_, _, rfl, ?_, ?_, ?_, ?_⟩
          · constructor
            · rw [List.map_append]
              refine List.nodup_append.mpr ⟨hN, List.nodup_singleton _, ?_⟩
              intro a ha hb
              simp only [List.map_cons, List.map_nil, List.mem_singleton]
                at hb
              subst hb
              exact hfresh ha
            · intro tid
              rw [pendingFor_append]
              by_cases htid : tid = task.id
              · subst htid
                rw [hpf]
                simp [pendingFor]
              · rw [List.length_append]
                have hnil : pendingFor
                    [{ id := freshId, task_id := task.id,
                       user_id := task.user_id, scheduled_time := due - off,
                       status := ReminderStatus.pending,
                       delivery_channel := ch, sent_at := none,
                       error_message := none, retry_count := 0 }] tid = [] := by
                  simp only [pendingFor, List.filter_cons, List.filter_nil]
                  split_ifs with hcond
                  · exact absurd (of_decide_eq_true hcond).1.symm htid
                  · rfl
                rw [hnil]
                simpa using hP tid
          · intro i hi
            rw [List.map_append] at hi
            rcases List.mem_append.mp hi with h1 | h2
            · exact .inl h1
            · simp at h2
              exact .inr h2
          · rintro (h1 | h2 | ⟨d2, o2, hd2, ho2, hlt⟩)
            · cases h1
            · cases h2
            · rw [Option.some.injEq] at hd2
              rw [Option.some.injEq] at ho2
              subst hd2
              subst ho2
              exact absurd hlt hpast
          · intro due2 off2 hdue2 hoff2 hnot
            rw [Option.some.injEq] at hdue2
            rw [Option.some.injEq] at hoff2
            subst hdue2
            subst hoff2
            refine ⟨_, rfl, rfl, rfl, rfl, ?_, fun _ => rfl, ?_⟩
            · rw [pendingFor_append, hpf]
              simp [pendingFor]
            · intro hc
              simp at hc
        | cons ex rest =>
          have hrest : rest = [] := by
            rw [hpf] at hple
            simp only [List.length_cons] at hple
            exact List.length_eq_zero.mp (by omega)
          subst hrest
          have hg : getPendingReminder s task.id = .ok (some ex) := by
            unfold getPendingReminder
            rw [hpf]
            rfl
          rw [hg]
          have hexmem : ex ∈ pendingFor s task.id := by
            rw [hpf]
            exact List.mem_cons_self _ _
          have hexs : ex ∈ s := List.mem_of_mem_filter hexmem
          have hexp : ex.task_id = task.id ∧
              ex.status = ReminderStatus.pending := by
            have h2 := hexmem
            unfold pendingFor at h2
            exact of_decide_eq_true (List.mem_filter.mp h2).2
          have hlen : ∀ tid, (pendingFor (updateById s
              { ex with scheduled_time := due - off,
                        delivery_channel := ch }) tid).length =
              (pendingFor s tid).length := by
            intro tid
            apply pendingFor_updateById_length
            intro x hx hid
            have hxe := List.inj_on_of_nodup_map hN hx hexs hid
            rw [hxe]
            exact ⟨rfl, rfl⟩
          refine ⟨_, _, rfl, ?_, ?_, ?_, ?_⟩
          · constructor
            · rw [updateById_map_id]
              exact hN
            · intro tid
              rw [hlen tid]
              exact hP tid
          · intro i hi
            rw [updateById_map_id] at hi
            exact .inl hi
          · rintro (h1 | h2 | ⟨d2, o2, hd2, ho2, hlt⟩)
            · cases h1
            · cases h2
            · rw [Option.some.injEq] at hd2
              rw [Option.some.injEq] at ho2
              subst hd2
              subst ho2
              exact absurd hlt hpast
          · intro due2 off2 hdue2 hoff2 hnot
            rw [Option.some.injEq] at hdue2
            rw [Option.some.injEq] at hoff2
            subst hdue2
            subst hoff2
            refine ⟨_, rfl, hexp.2, hexp.1, rfl, ?_, ?_, ?_⟩
            · rw [hlen task.id, hpf]
              rfl
            · intro hc
              cases hc
            · intro _
              unfold updateById
              rw [List.length_map]


theorem runSchedules_inv :
    ∀ (calls : List (Int × Nat × Task × String)) (s : List Reminder),
      ScheduleInv s →
      (s.map Reminder.id ++ calls.map (fun c => c.2.1)).Nodup →
      ∃ s', runSchedules calls s = .ok s' ∧ ScheduleInv s' := by
  intro calls
  induction calls with
  | nil =>
    intro s hInv _
    exact ⟨s, rfl, hInv⟩
  | cons c rest ih =>
    intro s hInv hbig
    obtain ⟨now, fid, t, ch⟩ := c
    simp only [List.map_cons] at hbig
    have hbig2 := List.nodup_append.mp hbig
    have hfresh : fid ∉ s.map Reminder.id := by
      intro hmem
      exact hbig2.2.2 hmem (List.mem_cons_self _ _)
    obtain ⟨res, s', hok, hInv', hsub, -, -⟩ :=
      schedule_reminder_step hInv now fid t ch hfresh
    have hbig' : (s'.map Reminder.id ++ rest.map (fun c => c.2.1)).Nodup := by
      apply List.nodup_append.mpr
      refine ⟨hInv'.1, (List.nodup_cons.mp hbig2.2.1).2, ?_⟩
      intro a ha hb
      rcases hsub a ha with h1 | h2
      · exact hbig2.2.2 h1 (List.mem_cons_of_mem _ hb)
      · subst h2
        exact (List.nodup_cons.mp hbig2.2.1).1 hb
    obtain ⟨s2, hok2, hInv2⟩ := ih s' hInv' hbig'
    refine ⟨s2, ?_, hInv2⟩
    simp only [runSchedules]
    rw [hok]
    exact hok2

/-- C5: `schedule_reminder` is a no-op exactly when the task has no
due date, has no reminder offset, or the computed scheduled time is in the
past; otherwise it returns a PENDING reminder at `due - offset`, updating
the task's existing pending reminder in place instead of inserting a
second one, so after any sequence of `schedule_reminder` calls at most one
PENDING reminder exists per task. -/
theorem C5_schedule_reminder :
    (∀ (s : List Reminder) (now : Int) (freshId : Nat) (task : Task)
        (ch : String), ScheduleInv s → freshId ∉ s.map Reminder.id →
      ∃ res s', schedule_reminder s now freshId task ch = .ok (res, s') ∧
        ScheduleInv s' ∧
        ((task.due_date = none ∨ task.reminder_offset_minutes = none ∨
            (∃ due off, task.due_date = some due ∧
              task.reminder_offset_minutes = some off ∧ due - off < now)) →
          res = none ∧ s' = s) ∧
        (∀ due off, task.due_date = some due →
          task.reminder_offset_minutes = some off → ¬ due - off < now →
          ∃ r, res = some r ∧ r.status = ReminderStatus.pending ∧
            r.task_id = task.id ∧ r.scheduled_time = due - off ∧
            (pendingFor s' task.id).length = 1 ∧
            (pendingFor s task.id = [] → s' = s ++ [r]) ∧
            ((pendingFor s task.id).length = 1 → s'.length = s.length))) ∧
    (∀ (calls : List (Int × Nat × Task × String)) (s : List Reminder),
      ScheduleInv s →
      (s.map Reminder.id ++ calls.map (fun c => c.2.1)).Nodup →
      ∃ s', runSchedules calls s = .ok s' ∧
        ∀ tid, (pendingFor s' tid).length ≤ 1) := by
  constructor
  · intro s now freshId task ch hInv hfresh
    obtain ⟨res, s', hok, hInv', hsub, hnone, hsome⟩ :=
      schedule_reminder_step hInv now freshId task ch hfresh
    exact ⟨res, s', hok, hInv', hnone, hsome⟩
  · intro calls s hInv hbig
    obtain ⟨s', hok, hInv'⟩ := runSchedules_inv calls s hInv hbig
    exact ⟨s', hok, hInv'.2⟩

/-- Witness for C5: one scheduling call on the empty table. -/
theorem C5_schedule_reminder_witness :
    ∃ s', runSchedules [(0, 1, ⟨1, "u", "T", false, some 100, some 10⟩,
        "in-app")] [] = .ok s' ∧
      ∀ tid, (pendingFor s' tid).length ≤ 1 :=
  C5_schedule_reminder.2
    [(0, 1, ⟨1, "u", "T", false, some 100, some 10⟩, "in-app")] []
    ⟨List.nodup_nil, fun tid => by simp [pendingFor]⟩ (by simp)

end TodoRem

namespace TodoRem

theorem markFailedCore_failedInv {r : Reminder} (e : String)
    (h : r.status = ReminderStatus.failed →
      MAX_RETRY_ATTEMPTS ≤ r.retry_count) :
    (markFailedCore r e).status = ReminderStatus.failed →
      MAX_RETRY_ATTEMPTS ≤ (markFailedCore r e).retry_count := by
  intro hstat
  rw [markFailedCore_status] at hstat
  rw [markFailedCore_retry]
  split_ifs at hstat with hc
  · exact hc
  · have := h hstat
    omega

theorem failedInv_updateById {s : List Reminder} {r : Reminder}
    (hs : FailedInv s)
    (hr : r.status = ReminderStatus.failed →
      MAX_RETRY_ATTEMPTS ≤ r.retry_count) :
    FailedInv (updateById s r) := by
  intro x hx hxf
  unfold updateById at hx
  obtain ⟨y, hy, hyx⟩ := List.mem_map.mp hx
  by_cases hid : y.id = r.id
  · rw [if_pos hid] at hyx
    subst hyx
    exact hr hxf
  · rw [if_neg hid] at hyx
    subst hyx
    exact hs y hy hxf

theorem scalarOneOrNone_ok_some {α : Type} {l : List α} {a : α}
    (h : scalarOneOrNone l = .ok (some a)) : l = [a] := by
  match l, h with
  | [a'], h =>
    simp only [scalarOneOrNone, Except.ok.injEq, Option.some.injEq] at h
    rw [h]

theorem mem_of_filter_id_eq {s : List Reminder} {rid : Nat} {r : Reminder}
    (h : (s.filter fun x => decide (x.id = rid)) = [r]) : r ∈ s ∧ r.id = rid := by
  have hmem : r ∈ s.filter fun x => decide (x.id = rid) := by
    rw [h]
    exact List.mem_cons_self _ _
  exact ⟨List.mem_of_mem_filter hmem,
    of_decide_eq_true (List.mem_filter.mp hmem).2⟩

theorem schedule_reminder_failedInv {s s' : List Reminder} {now : Int}
    {freshId : Nat} {task : Task} {ch : String} {res : Option Reminder}
    (hs : FailedInv s)
    (h : schedule_reminder s now freshId task ch = .ok (res, s')) :
    FailedInv s' := by
  unfold schedule_reminder at h
  cases hd : task.due_date with
  | none =>
    rw [hd] at h
    simp only [Except.ok.injEq, Prod.mk.injEq] at h
    rw [← h.2]
    exact hs
  | some due =>
    rw [hd] at h
    dsimp only at h
    cases ho : task.reminder_offset_minutes with
    | none =>
      rw [ho] at h
      simp only [Except.ok.injEq, Prod.mk.injEq] at h
      rw [← h.2]
      exact hs
    | some off =>
      rw [ho] at h
      dsimp only at h
      split_ifs at h with hpast
      · simp only [Except.ok.injEq, Prod.mk.injEq] at h
        rw [← h.2]
        exact hs
      · cases hg : getPendingReminder s task.id with
        | error e =>
          rw [hg] at h
          cases h
        | ok o =>
          rw [hg] at h
          cases o with
          | some ex =>
            dsimp only at h
            simp only [Except.ok.injEq, Prod.mk.injEq] at h
            rw [← h.2]
            apply failedInv_updateById hs
            intro hf
            have hpmem : ex ∈ pendingFor s task.id := by
              have := scalarOneOrNone_ok_some hg
              rw [this]
              exact List.mem_cons_self _ _
            have hpp : ex.status = ReminderStatus.pending := by
              have h2 := hpmem
              unfold pendingFor at h2
              exact (of_decide_eq_true (List.mem_filter.mp h2).2).2
            rw [hpp] at hf
            cases hf
          | none =>
            dsimp only at h
            simp only [Except.ok.injEq, Prod.mk.injEq] at h
            rw [← h.2]
            intro x hx hxf
            rcases List.mem_append.mp hx with h1 | h2
            · exact hs x h1 hxf
            · simp only [List.mem_singleton] at h2
              subst h2
              cases hxf

theorem cancel_reminder_failedInv {s s' : List Reminder} {tid : Nat}
    {b : Bool} (hs : FailedInv s)
    (h : cancel_reminder s tid = .ok (b, s')) : FailedInv s' := by
  unfold cancel_reminder at h
  cases hg : getPendingReminder s tid with
  | error e =>
    rw [hg] at h
    cases h
  | ok o =>
    rw [hg] at h
    cases o with
    | some rem =>
      dsimp only at h
      simp only [Except.ok.injEq, Prod.mk.injEq] at h
      rw [← h.2]
      apply failedInv_updateById hs
      intro hf
      cases hf
    | none =>
      simp only [Except.ok.injEq, Prod.mk.injEq] at h
      rw [← h.2]
      exact hs

theorem mark_reminder_sent_failedInv {s s' : List Reminder} {now : Int}
    {rid : Nat} {b : Bool} (hs : FailedInv s)
    (h : mark_reminder_sent s now rid = .ok (b, s')) : FailedInv s' := by
  unfold mark_reminder_sent at h
  cases hg : scalarOneOrNone (s.filter fun x => decide (x.id = rid)) with
  | error e =>
    rw [hg] at h
    cases h
  | ok o =>
    rw [hg] at h
    cases o with
    | some rem =>
      dsimp only at h
      simp only [Except.ok.injEq, Prod.mk.injEq] at h
      rw [← h.2]
      apply failedInv_updateById hs
      intro hf
      cases hf
    | none =>
      simp only [Except.ok.injEq, Prod.mk.injEq] at h
      rw [← h.2]
      exact hs

theorem mark_reminder_failed_failedInv {s s' : List Reminder} {rid : Nat}
    {err : String} {b : Bool} (hs : FailedInv s)
    (h : mark_reminder_failed s rid err = .ok (b, s')) : FailedInv s' := by
  unfold mark_reminder_failed at h
  cases hg : scalarOneOrNone (s.filter fun x => decide (x.id = rid)) with
  | error e =>
    rw [hg] at h
    cases h
  | ok o =>
    rw [hg] at h
    cases o with
    | some rem =>
      dsimp only at h
      simp only [Except.ok.injEq, Prod.mk.injEq] at h
      rw [← h.2]
      have hrem : rem ∈ s := (mem_of_filter_id_eq (scalarOneOrNone_ok_some hg)).1
      exact failedInv_updateById hs (markFailedCore_failedInv err (hs rem hrem))
    | none =>
      simp only [Except.ok.injEq, Prod.mk.injEq] at h
      rw [← h.2]
      exact hs

theorem processOne_failedInv {tasks : Nat → Option Task}
    {publish : Reminder → Task → Option String} {r : Reminder}
    (hr : r.status = ReminderStatus.failed →
      MAX_RETRY_ATTEMPTS ≤ r.retry_count) :
    (processOne tasks publish r).1.status = ReminderStatus.failed →
      MAX_RETRY_ATTEMPTS ≤ (processOne tasks publish r).1.retry_count := by
  unfold processOne
  cases tasks r.task_id with
  | none =>
    intro hstat
    cases hstat
  | some task =>
    dsimp only
    split_ifs with hc
    · intro hstat
      cases hstat
    · cases publish r task with
      | none => exact hr
      | some e => exact markFailedCore_failedInv e hr

theorem sweep_foldl_failedInv {tasks : Nat → Option Task}
    {publish : Reminder → Task → Option String} :
    ∀ (l : List Reminder) (acc : SweepResult), FailedInv acc.state →
      (∀ r ∈ l, r.status = ReminderStatus.failed →
        MAX_RETRY_ATTEMPTS ≤ r.retry_count) →
      FailedInv (l.foldl (sweepStep tasks publish) acc).state := by
  intro l
  induction l with
  | nil =>
    intro acc hacc _
    exact hacc
  | cons r t ih =>
    intro acc hacc hl
    simp only [List.foldl_cons]
    apply ih
    · unfold sweepStep
      exact failedInv_updateById hacc
        (processOne_failedInv (hl r (List.mem_cons_self _ _)))
    · intro x hx
      exact hl x (List.mem_cons_of_mem _ hx)

theorem process_due_reminders_failedInv {tasks : Nat → Option Task}
    {publish : Reminder → Task → Option String} {s : List Reminder}
    {now : Int} (hs : FailedInv s) :
    FailedInv (process_due_reminders tasks publish s now).state := by
  unfold process_due_reminders
  apply sweep_foldl_failedInv _ _ hs
  intro r hr
  exact hs r (mem_of_mem_get_due hr)

/-- C10: in every table state reachable through the public reminder
operations, a FAILED reminder has `retry_count ≥ MAX_RETRY_ATTEMPTS = 3`,
so the retry disjunct of `get_due_reminders` never selects a reminder:
no FAILED reminder is ever returned for redelivery. -/
theorem C10_failed_never_redelivered (s : List Reminder)
    (h : ReachableR s) :
    FailedInv s ∧
    ∀ (now : Int) (limit : Nat) (ir : Bool) (r : Reminder),
      r ∈ get_due_reminders s now limit ir →
        r.status ≠ ReminderStatus.failed := by
  have hInv : FailedInv s := by
    induction h with
    | nil => intro r hr; cases hr
    | sched s now freshId task ch res s' hreach hop ih =>
      exact schedule_reminder_failedInv ih hop
    | cancel s tid b s' hreach hop ih =>
      exact cancel_reminder_failedInv ih hop
    | msent s now rid b s' hreach hop ih =>
      exact mark_reminder_sent_failedInv ih hop
    | mfailed s rid err b s' hreach hop ih =>
      exact mark_reminder_failed_failedInv ih hop
    | sweep s tasks publish now hreach ih =>
      exact process_due_reminders_failedInv ih
  refine ⟨hInv, ?_⟩
  intro now limit ir r hmem hf
  have hpred := duePred_of_mem_get_due hmem
  have hrs : r ∈ s := mem_of_mem_get_due hmem
  have hge := hInv r hrs hf
  simp only [duePred, hf, Bool.or_eq_true, Bool.and_eq_true,
    decide_eq_true_eq] at hpred
  rcases hpred with ⟨h1, -⟩ | ⟨⟨-, -⟩, h3⟩
  · cases h1
  · omega

/-- Witness for C10 at the empty (trivially reachable) table. -/
theorem C10_failed_never_redelivered_witness :
    FailedInv [] ∧
    ∀ (now : Int) (limit : Nat) (ir : Bool) (r : Reminder),
      r ∈ get_due_reminders [] now limit ir →
        r.status ≠ ReminderStatus.failed :=
  C10_failed_never_redelivered [] ReachableR.nil

end TodoRem

namespace TodoRem

theorem processOne_fst_id (tasks : Nat → Option Task)
    (publish : Reminder → Task → Option String) (r : Reminder) :
    (processOne tasks publish r).1.id = r.id := by
  unfold processOne
  cases tasks r.task_id with
  | none => rfl
  | some t =>
    dsimp only
    split_ifs
    · rfl
    · cases publish r t with
      | none => rfl
      | some e => exact markFailedCore_id r e

theorem processOne_snd (tasks : Nat → Option Task)
    (publish : Reminder → Task → Option String) (r : Reminder) :
    (processOne tasks publish r).2 =
      if publishOk tasks publish r then some r.id else none := by
  unfold processOne publishOk
  cases tasks r.task_id with
  | none => rfl
  | some t =>
    dsimp only
    cases hc : t.is_complete with
    | true => simp
    | false =>
      cases publish r t with
      | none => simp
      | some e => simp

theorem foldl_processed_events (tasks : Nat → Option Task)
    (publish : Reminder → Task → Option String) :
    ∀ (l : List Reminder) (acc : SweepResult),
      (l.foldl (sweepStep tasks publish) acc).processed =
        acc.processed + (l.filter (publishOk tasks publish)).length ∧
      (l.foldl (sweepStep tasks publish) acc).events =
        acc.events ++ (l.filter (publishOk tasks publish)).map Reminder.id := by
  intro l
  induction l with
  | nil =>
    intro acc
    simp
  | cons r t ih =>
    intro acc
    simp only [List.foldl_cons, List.filter_cons]
    obtain ⟨ih1, ih2⟩ := ih (sweepStep tasks publish acc r)
    have hsnd := processOne_snd tasks publish r
    rcases hpo : processOne tasks publish r with ⟨r', ev⟩
    rw [hpo] at hsnd
    have hstep : sweepStep tasks publish acc r =
        { processed := acc.processed + (if ev.isSome then 1 else 0)
          events := acc.events ++ ev.toList
          state := updateById acc.state r' } := by
      unfold sweepStep
      rw [hpo]
    rw [hstep] at ih1 ih2
    cases hok : publishOk tasks publish r with
    | true =>
      rw [hok] at hsnd
      simp only [if_pos] at hsnd
      subst hsnd
      rw [if_pos rfl, hstep]
      constructor
      · rw [ih1]
        dsimp only
        simp only [Option.isSome_some, if_true, List.length_cons]
        omega
      · rw [ih2]
        dsimp only
        simp
    | false =>
      rw [hok] at hsnd
      simp only [Bool.false_eq_true, if_false] at hsnd
      subst hsnd
      rw [if_neg (by simp), hstep]
      constructor
      · rw [ih1]
        dsimp only
        simp
      · rw [ih2]
        dsimp only
        simp

theorem foldl_state_ids (tasks : Nat → Option Task)
    (publish : Reminder → Task → Option String) :
    ∀ (l : List Reminder) (acc : SweepResult),
      ((l.foldl (sweepStep tasks publish) acc).state).map Reminder.id =
        acc.state.map Reminder.id := by
  intro l
  induction l with
  | nil =>
    intro acc
    rfl
  | cons r t ih =>
    intro acc
    simp only [List.foldl_cons]
    rw [ih]
    unfold sweepStep
    exact updateById_map_id _ _

theorem foldl_lookup_untouched (tasks : Nat → Option Task)
    (publish : Reminder → Task → Option String) :
    ∀ (l : List Reminder) (acc : SweepResult) (i : Nat),
      i ∉ l.map Reminder.id →
      lookupId ((l.foldl (sweepStep tasks publish) acc).state) i =
        lookupId acc.state i := by
  intro l
  induction l with
  | nil =>
    intro acc i _
    rfl
  | cons r t ih =>
    intro acc i hi
    simp only [List.map_cons, List.mem_cons, not_or] at hi
    simp only [List.foldl_cons]
    rw [ih _ i hi.2]
    unfold sweepStep
    apply lookupId_updateById_ne
    rw [processOne_fst_id]
    exact fun h => hi.1 h.symm

theorem foldl_mem_state_untouched (tasks : Nat → Option Task)
    (publish : Reminder → Task → Option String) :
    ∀ (l : List Reminder) (acc : SweepResult) (x : Reminder),
      x ∈ acc.state → x.id ∉ l.map Reminder.id →
      x ∈ (l.foldl (sweepStep tasks publish) acc).state := by
  intro l
  induction l with
  | nil =>
    intro acc x hx _
    exact hx
  | cons r t ih =>
    intro acc x hx hi
    simp only [List.map_cons, List.mem_cons, not_or] at hi
    simp only [List.foldl_cons]
    apply ih _ x _ hi.2
    unfold sweepStep
    apply mem_updateById_of_ne hx
    rw [processOne_fst_id]
    exact hi.1

theorem foldl_lookup_processed (tasks : Nat → Option Task)
    (publish : Reminder → Task → Option String) :
    ∀ (l : List Reminder) (acc : SweepResult) (r : Reminder), r ∈ l →
      (l.map Reminder.id).Nodup → r.id ∈ acc.state.map Reminder.id →
      lookupId ((l.foldl (sweepStep tasks publish) acc).state) r.id =
        some (processOne tasks publish r).1 := by
  intro l
  induction l with
  | nil =>
    intro acc r hr
    cases hr
  | cons x t ih =>
    intro acc r hr hN hid
    have hN2 : x.id ∉ t.map Reminder.id ∧ (t.map Reminder.id).Nodup := by
      rw [List.map_cons, List.nodup_cons] at hN
      exact hN
    rcases List.mem_cons.mp hr with rfl | hrt
    · simp only [List.foldl_cons]
      rw [foldl_lookup_untouched tasks publish t _ r.id hN2.1]
      unfold sweepStep
      rw [← processOne_fst_id tasks publish r]
      apply lookupId_updateById_self
      rw [processOne_fst_id]
      exact hid
    · simp only [List.foldl_cons]
      apply ih _ r hrt hN2.2
      unfold sweepStep
      rw [updateById_map_id]
      exact hid

theorem get_due_ids_nodup {s : List Reminder} {now : Int} {limit : Nat}
    {ir : Bool} (hN : (s.map Reminder.id).Nodup) :
    ((get_due_reminders s now limit ir).map Reminder.id).Nodup := by
  unfold get_due_reminders
  have h1 : ((s.filter (duePred now ir)).map Reminder.id).Nodup :=
    List.Nodup.sublist ((List.filter_sublist s).map Reminder.id) hN
  have hperm := List.perm_insertionSort schedLE (s.filter (duePred now ir))
  have h2 : ((List.insertionSort schedLE
      (s.filter (duePred now ir))).map Reminder.id).Nodup :=
    ((hperm.map Reminder.id).nodup_iff).mpr h1
  exact List.Nodup.sublist
    ((List.take_sublist limit _).map Reminder.id) h2

theorem events_eq (tasks : Nat → Option Task)
    (publish : Reminder → Task → Option String) (s : List Reminder)
    (now : Int) :
    (process_due_reminders tasks publish s now).events =
      ((get_due_reminders s now 100 true).filter
        (publishOk tasks publish)).map Reminder.id := by
  unfold process_due_reminders
  have := (foldl_processed_events tasks publish
    (get_due_reminders s now 100 true) ⟨0, [], s⟩).2
  simpa using this

theorem not_mem_events_of_not_ok {tasks : Nat → Option Task}
    {publish : Reminder → Task → Option String} {s : List Reminder}
    {now : Int} {r : Reminder} (hN : (s.map Reminder.id).Nodup)
    (hr : r ∈ get_due_reminders s now 100 true)
    (hnok : publishOk tasks publish r = false) :
    r.id ∉ (process_due_reminders tasks publish s now).events := by
  rw [events_eq]
  intro hmem
  obtain ⟨x, hx, hxid⟩ := List.mem_map.mp hmem
  have hxdue : x ∈ get_due_reminders s now 100 true :=
    List.mem_of_mem_filter hx
  have hxok := List.of_mem_filter hx
  have hxr : x = r :=
    List.inj_on_of_nodup_map (get_due_ids_nodup hN) hxdue hr hxid
  rw [hxr] at hxok
  rw [hxok] at hnok
  cases hnok

/-- C7: during a sweep, a due reminder whose task is missing becomes
CANCELLED with error "Task not found" and publishes nothing; one whose task
is complete becomes CANCELLED with error "Task already completed" and
publishes nothing; a publish failure is routed per-reminder into the
mark-failed logic (the rest of the batch still runs); and the returned
count equals the number of reminders whose publish step succeeded. -/
theorem C7_process_due_reminders (tasks : Nat → Option Task)
    (publish : Reminder → Task → Option String) (s : List Reminder)
    (now : Int) (hN : (s.map Reminder.id).Nodup) :
    (process_due_reminders tasks publish s now).processed =
      (process_due_reminders tasks publish s now).events.length ∧
    (process_due_reminders tasks publish s now).events =
      ((get_due_reminders s now 100 true).filter
        (publishOk tasks publish)).map Reminder.id ∧
    (∀ r ∈ get_due_reminders s now 100 true, tasks r.task_id = none →
      lookupId (process_due_reminders tasks publish s now).state r.id =
        some { r with status := ReminderStatus.cancelled,
                      error_message := some "Task not found" } ∧
      r.id ∉ (process_due_reminders tasks publish s now).events) ∧
    (∀ r ∈ get_due_reminders s now 100 true, ∀ t,
      tasks r.task_id = some t → t.is_complete = true →
      lookupId (process_due_reminders tasks publish s now).state r.id =
        some { r with status := ReminderStatus.cancelled,
                      error_message := some "Task already completed" } ∧
      r.id ∉ (process_due_reminders tasks publish s now).events) ∧
    (∀ r ∈ get_due_reminders s now 100 true, ∀ t e,
      tasks r.task_id = some t → t.is_complete = false → publish r t = some e →
      lookupId (process_due_reminders tasks publish s now).state r.id =
        some (markFailedCore r e) ∧
      r.id ∉ (process_due_reminders tasks publish s now).events) := by
  have hdueN : ((get_due_reminders s now 100 true).map Reminder.id).Nodup :=
    get_due_ids_nodup hN
  have hlp : ∀ r ∈ get_due_reminders s now 100 true,
      lookupId (process_due_reminders tasks publish s now).state r.id =
        some (processOne tasks publish r).1 := by
    intro r hr
    unfold process_due_reminders
    exact foldl_lookup_processed tasks publish _ ⟨0, [], s⟩ r hr hdueN
      (List.mem_map_of_mem _ (mem_of_mem_get_due hr))
  refine ⟨?_, events_eq tasks publish s now, ?_, ?_, ?_⟩
  · rw [events_eq tasks publish s now]
    unfold process_due_reminders
    rw [(foldl_processed_events tasks publish _ ⟨0, [], s⟩).1]
    simp
  · intro r hr htask
    have hnok : publishOk tasks publish r = false := by
      unfold publishOk
      rw [htask]
    refine ⟨?_, not_mem_events_of_not_ok hN hr hnok⟩
    rw [hlp r hr]
    unfold processOne
    rw [htask]
  · intro r hr t htask hcomp
    have hnok : publishOk tasks publish r = false := by
      unfold publishOk
      rw [htask]
      simp [hcomp]
    refine ⟨?_, not_mem_events_of_not_ok hN hr hnok⟩
    rw [hlp r hr]
    unfold processOne
    rw [htask]
    dsimp only
    rw [if_pos hcomp]
  · intro r hr t e htask hcomp hpub
    have hnok : publishOk tasks publish r = false := by
      unfold publishOk
      rw [htask]
      simp [hcomp, hpub]
    refine ⟨?_, not_mem_events_of_not_ok hN hr hnok⟩
    rw [hlp r hr]
    unfold processOne
    rw [htask]
    dsimp only
    rw [if_neg (by rw [hcomp]; exact Bool.false_ne_true), hpub]

/-- Witness for C7 on the empty table. -/
theorem C7_process_due_reminders_witness :
    (process_due_reminders (fun _ => none) (fun _ _ => none) [] 0).processed =
      (process_due_reminders (fun _ => none) (fun _ _ => none) []
        0).events.length ∧
    (process_due_reminders (fun _ => none) (fun _ _ => none) [] 0).events =
      ((get_due_reminders [] 0 100 true).filter
        (publishOk (fun _ => none) (fun _ _ => none))).map Reminder.id ∧
    (∀ r ∈ get_due_reminders [] 0 100 true,
      (fun _ : Nat => (none : Option Task)) r.task_id = none →
      lookupId (process_due_reminders (fun _ => none) (fun _ _ => none) []
          0).state r.id =
        some { r with status := ReminderStatus.cancelled,
                      error_message := some "Task not found" } ∧
      r.id ∉ (process_due_reminders (fun _ => none) (fun _ _ => none) []
        0).events) ∧
    (∀ r ∈ get_due_reminders [] 0 100 true, ∀ t,
      (fun _ : Nat => (none : Option Task)) r.task_id = some t →
      t.is_complete = true →
      lookupId (process_due_reminders (fun _ => none) (fun _ _ => none) []
          0).state r.id =
        some { r with status := ReminderStatus.cancelled,
                      error_message := some "Task already completed" } ∧
      r.id ∉ (process_due_reminders (fun _ => none) (fun _ _ => none) []
        0).events) ∧
    (∀ r ∈ get_due_reminders [] 0 100 true, ∀ t e,
      (fun _ : Nat => (none : Option Task)) r.task_id = some t →
      t.is_complete = false →
      (fun _ : Reminder => fun _ : Task => (none : Option String)) r t =
        some e →
      lookupId (process_due_reminders (fun _ => none) (fun _ _ => none) []
          0).state r.id = some (markFailedCore r e) ∧
      r.id ∉ (process_due_reminders (fun _ => none) (fun _ _ => none) []
        0).events) :=
  C7_process_due_reminders (fun _ => none) (fun _ _ => none) [] 0 (by simp)

theorem mem_updateById_self {s : List Reminder} {x r' : Reminder}
    (hx : x ∈ s) (hid : x.id = r'.id) : r' ∈ updateById s r' := by
  unfold updateById
  refine List.mem_map.mpr ⟨x, hx, ?_⟩
  show (if x.id = r'.id then r' else x) = r'
  rw [if_pos hid]

theorem processOne_status_keeps_failed {tasks : Nat → Option Task}
    {publish : Reminder → Task → Option String} {r : Reminder}
    (hf : r.status = ReminderStatus.failed) :
    (processOne tasks publish r).1.status ≠ ReminderStatus.pending ∧
    (processOne tasks publish r).1.status ≠ ReminderStatus.sent := by
  unfold processOne
  cases tasks r.task_id with
  | none => exact ⟨(fun h => nomatch h), (fun h => nomatch h)⟩
  | some t =>
    dsimp only
    split_ifs
    · exact ⟨(fun h => nomatch h), (fun h => nomatch h)⟩
    · cases publish r t with
      | none =>
        rw [hf]
        exact ⟨(fun h => nomatch h), (fun h => nomatch h)⟩
      | some e =>
        rw [markFailedCore_status]
        split_ifs
        · exact ⟨(fun h => nomatch h), (fun h => nomatch h)⟩
        · rw [hf]
          exact ⟨(fun h => nomatch h), (fun h => nomatch h)⟩

end TodoRem

namespace TodoRem

/-- C8 counterexample: through the public operations alone, three
`mark_reminder_failed` calls make a pending reminder FAILED, after which
`mark_reminder_sent` flips it to SENT (un-failing it); and
`mark_reminder_failed` on a SENT reminder flips it to FAILED. -/
theorem C8_counterexample :
    cexR0.status = ReminderStatus.pending ∧
    mark_reminder_failed [cexR0] 1 "boom" = .ok (true, [cexR1]) ∧
    mark_reminder_failed [cexR1] 1 "boom" = .ok (true, [cexR2]) ∧
    mark_reminder_failed [cexR2] 1 "boom" = .ok (true, [cexR3]) ∧
    cexR3.status = ReminderStatus.failed ∧
    mark_reminder_sent [cexR3] 9 1 = .ok (true, [cexR4]) ∧
    cexR4.status = ReminderStatus.sent ∧
    cexS2.status = ReminderStatus.sent ∧
    mark_reminder_failed [cexS2] 2 "late" = .ok (true, [cexS3]) ∧
    cexS3.status = ReminderStatus.failed :=
  ⟨rfl, rfl, rfl, rfl, rfl, rfl, rfl, rfl, rfl, rfl⟩

/-- C8 amended: `schedule_reminder`, `cancel_reminder` and
`process_due_reminders` are monotonic — they never touch a SENT or FAILED
reminder except that a sweep may cancel or re-fail a FAILED one, never
reviving it to PENDING or SENT — and `mark_reminder_failed` keeps FAILED
reminders FAILED; but `mark_reminder_sent` unconditionally sets whatever
reminder it finds to SENT (even a FAILED one). -/
theorem C8_amended_monotonicity :
    (∀ (s : List Reminder) (now : Int) (freshId : Nat) (task : Task)
        (ch : String) (res : Option Reminder) (s' : List Reminder),
      (s.map Reminder.id).Nodup →
      schedule_reminder s now freshId task ch = .ok (res, s') →
      ∀ r ∈ s, r.status ≠ ReminderStatus.pending → r ∈ s') ∧
    (∀ (s : List Reminder) (tid : Nat) (b : Bool) (s' : List Reminder),
      (s.map Reminder.id).Nodup → cancel_reminder s tid = .ok (b, s') →
      ∀ r ∈ s, r.status ≠ ReminderStatus.pending → r ∈ s') ∧
    (∀ (tasks : Nat → Option Task)
        (publish : Reminder → Task → Option String) (s : List Reminder)
        (now : Int), (s.map Reminder.id).Nodup →
      ∀ r ∈ s,
        (r.status = ReminderStatus.sent →
          r ∈ (process_due_reminders tasks publish s now).state) ∧
        (r.status = ReminderStatus.failed →
          ∃ r', lookupId (process_due_reminders tasks publish s now).state
              r.id = some r' ∧
            r'.status ≠ ReminderStatus.pending ∧
            r'.status ≠ ReminderStatus.sent)) ∧
    (∀ (s : List Reminder) (rid : Nat) (err : String) (b : Bool)
        (s' : List Reminder), (s.map Reminder.id).Nodup →
      mark_reminder_failed s rid err = .ok (b, s') →
      ∀ r ∈ s, r.status = ReminderStatus.failed →
        ∃ r' ∈ s', r'.id = r.id ∧ r'.status = ReminderStatus.failed) ∧
    (∀ (s : List Reminder) (now : Int) (rid : Nat) (r : Reminder),
      (s.filter fun x => decide (x.id = rid)) = [r] →
      mark_reminder_sent s now rid =
        .ok (true, updateById s
          { r with status := ReminderStatus.sent, sent_at := some now })) := by
  refine ⟨?_, ?_, ?_, ?_, ?_⟩
  · intro s now freshId task ch res s' hN hok r hr hrs
    unfold schedule_reminder at hok
    cases hd : task.due_date with
    | none =>
      rw [hd] at hok
      simp only [Except.ok.injEq, Prod.mk.injEq] at hok
      rw [← hok.2]
      exact hr
    | some due =>
      rw [hd] at hok
      dsimp only at hok
      cases ho : task.reminder_offset_minutes with
      | none =>
        rw [ho] at hok
        simp only [Except.ok.injEq, Prod.mk.injEq] at hok
        rw [← hok.2]
        exact hr
      | some off =>
        rw [ho] at hok
        dsimp only at hok
        split_ifs at hok with hpast
        · simp only [Except.ok.injEq, Prod.mk.injEq] at hok
          rw [← hok.2]
          exact hr
        · cases hg : getPendingReminder s task.id with
          | error e =>
            rw [hg] at hok
            cases hok
          | ok o =>
            rw [hg] at hok
            cases o with
            | none =>
              dsimp only at hok
              simp only [Except.ok.injEq, Prod.mk.injEq] at hok
              rw [← hok.2]
              exact List.mem_append_left _ hr
            | some ex =>
              dsimp only at hok
              simp only [Except.ok.injEq, Prod.mk.injEq] at hok
              rw [← hok.2]
              have hpf : pendingFor s task.id = [ex] := by
                unfold getPendingReminder at hg
                exact scalarOneOrNone_ok_some hg
              have hexmem : ex ∈ pendingFor s task.id := by
                rw [hpf]
                exact List.mem_cons_self _ _
              have hexs : ex ∈ s := List.mem_of_mem_filter hexmem
              have hexp : ex.status = ReminderStatus.pending := by
                have h2 := hexmem
                unfold pendingFor at h2
                exact (of_decide_eq_true (List.mem_filter.mp h2).2).2
              have hid : r.id ≠ ex.id := by
                intro he
                have := List.inj_on_of_nodup_map hN hr hexs he
                rw [this, hexp] at hrs
                exact hrs rfl
              exact mem_updateById_of_ne hr hid
  · intro s tid b s' hN hok r hr hrs
    unfold cancel_reminder at hok
    cases hg : getPendingReminder s tid with
    | error e =>
      rw [hg] at hok
      cases hok
    | ok o =>
      rw [hg] at hok
      cases o with
      | none =>
        simp only [Except.ok.injEq, Prod.mk.injEq] at hok
        rw [← hok.2]
        exact hr
      | some rem =>
        dsimp only at hok
        simp only [Except.ok.injEq, Prod.mk.injEq] at hok
        rw [← hok.2]
        have hpf : pendingFor s tid = [rem] := by
          unfold getPendingReminder at hg
          exact scalarOneOrNone_ok_some hg
        have hremmem : rem ∈ pendingFor s tid := by
          rw [hpf]
          exact List.mem_cons_self _ _
        have hrems : rem ∈ s := List.mem_of_mem_filter hremmem
        have hremp : rem.status = ReminderStatus.pending := by
          have h2 := hremmem
          unfold pendingFor at h2
          exact (of_decide_eq_true (List.mem_filter.mp h2).2).2
        have hid : r.id ≠ rem.id := by
          intro he
          have := List.inj_on_of_nodup_map hN hr hrems he
          rw [this, hremp] at hrs
          exact hrs rfl
        exact mem_updateById_of_ne hr hid
  · intro tasks publish s now hN r hr
    constructor
    · intro hsent
      have hnotdue : r.id ∉
          (get_due_reminders s now 100 true).map Reminder.id := by
        intro hmem
        obtain ⟨x, hx, hxid⟩ := List.mem_map.mp hmem
        have hxs := mem_of_mem_get_due hx
        have hxr := List.inj_on_of_nodup_map hN hxs hr hxid
        rw [hxr] at hx
        have hpred := duePred_of_mem_get_due hx
        simp [duePred, hsent] at hpred
      unfold process_due_reminders
      exact foldl_mem_state_untouched tasks publish _ ⟨0, [], s⟩ r hr hnotdue
    · intro hf
      by_cases hdue : r ∈ get_due_reminders s now 100 true
      · have hlook : lookupId
            (process_due_reminders tasks publish s now).state r.id =
            some (processOne tasks publish r).1 := by
          unfold process_due_reminders
          exact foldl_lookup_processed tasks publish _ ⟨0, [], s⟩ r hdue
            (get_due_ids_nodup hN) (List.mem_map_of_mem _ hr)
        exact ⟨(processOne tasks publish r).1, hlook,
          processOne_status_keeps_failed hf⟩
      · have hnotdue : r.id ∉
            (get_due_reminders s now 100 true).map Reminder.id := by
          intro hmem
          obtain ⟨x, hx, hxid⟩ := List.mem_map.mp hmem
          have hxs := mem_of_mem_get_due hx
          have hxr := List.inj_on_of_nodup_map hN hxs hr hxid
          rw [hxr] at hx
          exact hdue hx
        have hlook : lookupId
            (process_due_reminders tasks publish s now).state r.id =
            lookupId s r.id := by
          unfold process_due_reminders
          exact foldl_lookup_untouched tasks publish _ ⟨0, [], s⟩ r.id hnotdue
        rw [lookupId_of_mem_nodup hN hr] at hlook
        refine ⟨r, hlook, ?_, ?_⟩
        · rw [hf]
          exact fun h => nomatch h
        · rw [hf]
          exact fun h => nomatch h
  · intro s rid err b s' hN hok r hr hf
    unfold mark_reminder_failed at hok
    cases hg : scalarOneOrNone (s.filter fun x => decide (x.id = rid)) with
    | error e =>
      rw [hg] at hok
      cases hok
    | ok o =>
      rw [hg] at hok
      cases o with
      | none =>
        simp only [Except.ok.injEq, Prod.mk.injEq] at hok
        rw [← hok.2]
        exact ⟨r, hr, rfl, hf⟩
      | some rem =>
        dsimp only at hok
        simp only [Except.ok.injEq, Prod.mk.injEq] at hok
        rw [← hok.2]
        have hfact := mem_of_filter_id_eq (scalarOneOrNone_ok_some hg)
        by_cases hid : r.id = rem.id
        · have hre : r = rem := List.inj_on_of_nodup_map hN hr hfact.1 hid
          refine ⟨markFailedCore rem err,
            mem_updateById_self hfact.1 (markFailedCore_id rem err).symm,
            ?_, ?_⟩
          · rw [markFailedCore_id, hre]
          · rw [markFailedCore_status]
            split_ifs
            · rfl
            · rw [← hre]
              exact hf
        · refine ⟨r, mem_updateById_of_ne hr ?_, rfl, hf⟩
          rw [markFailedCore_id]
          exact hid
  · intro s now rid r hfilt
    unfold mark_reminder_sent
    rw [hfilt]
    rfl

/-- Witness for the amended C8: `mark_reminder_sent` applied to a concrete
FAILED reminder. -/
theorem C8_amended_monotonicity_witness :
    mark_reminder_sent [cexR3] 9 1 =
      .ok (true, updateById [cexR3]
        { cexR3 with status := ReminderStatus.sent, sent_at := some 9 }) :=
  C8_amended_monotonicity.2.2.2.2 [cexR3] 9 1 cexR3 (by decide)

end TodoRem
